import Mathlib

/-! # go-downloader: a verification development for `main.go`

The file embeds `WriteCounter`, `WriteCounter.Write`, `WriteCounter.PrintProgress`
and `DownloadFile` of `src/main.go` as Lean functions and proves properties of them.

Conventions of the embedding

* `uint64` fields are natural numbers, every arithmetic operation on them is
  reduced modulo `2 ^ 64` where Go wraps around.
* A `time.Time` is the number of nanoseconds since the zero `time.Time`
  (January 1, year 1, 00:00:00 UTC); a `time.Duration` is an integer number of
  nanoseconds, saturated to the `int64` range as `Time.Sub` does.
* `float64` quantities (`elapsed`, `downloadSpeed`) are exact rationals.
* The clock, the filesystem, the HTTP server and the faults of the operating
  system are explicit inputs (`World`).
* A method call on a nil `*progressbar.ProgressBar` dereferences the pointer and
  panics; calls that can panic return `none` as their result.
-/

namespace Downloader

/-! ## Basic data -/

/-- A byte. -/
abbrev Byte := Fin 256

/-- A byte slice, by its contents. -/
abbrev Bytes := List Byte

/-- A Go `error` value, by its message. -/
structure Error where
  msg : String
  deriving DecidableEq, Repr

/-- The value `io.EOF`. -/
def EOF : Error := ⟨"EOF"⟩

/-- The value `io.ErrShortWrite`. -/
def ErrShortWrite : Error := ⟨"short write"⟩

/-- A `time.Time`: nanoseconds since the zero `time.Time`. -/
abbrev Time := Int

/-- A `time.Duration`: nanoseconds. -/
abbrev Duration := Int

/-- The constant `maxDuration` of package `time`: `1<<63 - 1`. -/
def maxDuration : Duration := 2 ^ 63 - 1

/-- The constant `minDuration` of package `time`: `-1 << 63`. -/
def minDuration : Duration := -(2 ^ 63)

/-- The method `Time.Sub`: `t - u`, and if the result exceeds what a `Duration` can
store, the maximum or minimum duration. -/
def Time.Sub (t u : Time) : Duration :=
  if t - u > maxDuration then maxDuration
  else if t - u < minDuration then minDuration
  else t - u

/-- The function `time.Since(t)` at clock reading `now`: `time.Now().Sub(t)`. -/
def Since (now t : Time) : Duration := Time.Sub now t

/-- The method `Duration.Seconds`, over the rationals. -/
def Duration.Seconds (d : Duration) : ℚ := (d : ℚ) / 1000000000

/-- The modulus of `uint64` arithmetic. -/
def u64 : Nat := 2 ^ 64

/-! ## The progress bar (package `progressbar`, external)

The bar is an external object. It is represented by the arguments it was built
with and by the calls made on it, in order. -/

/-- The status line handed to `Describe`: the two numbers that
`fmt.Sprintf("Downloading... %s complete | Speed: %s/s", ...)` formats, together
with the operands of the division that yields the speed. -/
structure Status where
  /-- The value of `wc.Total`. -/
  total : Nat
  /-- The value of `downloaded`, that is `wc.Total - wc.LastCounter`. -/
  downloaded : Nat
  /-- The value of `time.Since(wc.StartTime)`, in nanoseconds. -/
  elapsed : Duration
  /-- The value of `downloadSpeed`, that is `float64(downloaded) / elapsed`. -/
  speed : ℚ

/-- A call on the progress bar. -/
inductive BarCall where
  | Add (n : Int)
  | Clear
  | Describe (s : Status)

/-- A `progressbar.ProgressBar` as built by `progressbar.NewOptions`. -/
structure ProgressBar where
  /-- First argument of `NewOptions`. -/
  max : Int
  /-- Argument of `OptionSetDescription`. -/
  description : String
  /-- Argument of `OptionSetWidth`. -/
  width : Nat
  /-- Whether `OptionShowCount` was given. -/
  showCount : Bool
  /-- The calls made on the bar so far, oldest first. -/
  calls : List BarCall

/-- Records a call on the bar. -/
def ProgressBar.call (b : ProgressBar) (c : BarCall) : ProgressBar :=
  { b with calls := b.calls ++ [c] }

/-! ## `WriteCounter` -/

/-- The struct `WriteCounter`. `Progress` is a pointer: `none` is nil. -/
structure WriteCounter where
  Total : Nat
  LastCounter : Nat
  StartTime : Time
  Progress : Option ProgressBar

/-- The state of the receiver after a method call, and what the call returned;
`ret = none` when the call panicked. -/
structure Call (α : Type) where
  wc : WriteCounter
  ret : Option α

/-- The method `WriteCounter.PrintProgress`, at clock reading `now`. The quotient
is exact; where `elapsed` is 0 it is 0 here and an infinity or a NaN in Go, which
no statement below depends on. -/
def WriteCounter.PrintProgress (wc : WriteCounter) (now : Time) : Call Unit :=
  let elapsed := Duration.Seconds (Since now wc.StartTime)
  let downloaded := (wc.Total + u64 - wc.LastCounter % u64) % u64
  let downloadSpeed := (downloaded : ℚ) / elapsed
  match wc.Progress with
  | none => ⟨wc, none⟩
  | some bar =>
    let bar1 := bar.call BarCall.Clear
    let bar2 := bar1.call
      (BarCall.Describe ⟨wc.Total, downloaded, Since now wc.StartTime, downloadSpeed⟩)
    ⟨{ wc with Progress := some bar2, LastCounter := wc.Total }, some ()⟩

/-- The method `WriteCounter.Write` on the slice `p`, at clock reading `now`.
The result is the pair `(n, err)`. -/
def WriteCounter.Write (wc : WriteCounter) (p : Bytes) (now : Time) :
    Call (Nat × Option Error) :=
  let n := p.length
  let wc1 := { wc with Total := (wc.Total + n) % u64 }
  match wc1.Progress with
  | none => ⟨wc1, none⟩
  | some bar =>
    let wc2 := { wc1 with Progress := some (bar.call (BarCall.Add n)) }
    match (wc2.PrintProgress now).ret with
    | none => ⟨(wc2.PrintProgress now).wc, none⟩
    | some _ => ⟨(wc2.PrintProgress now).wc, some (n, none)⟩

/-! ## `strconv.Atoi` (Go standard library)

`DownloadFile` calls `strconv.Atoi` on the `Content-Length` header and keeps the
integer it returns, discarding the error. The functions below follow
`strconv/atoi.go` for base 10 on a platform whose `int` has 64 bits. A string is
read character by character; a character outside `0`..`9` is no digit, whether
Go stores it in one byte or in several, and a string whose bytes outnumber its
characters holds such a character, so that both paths of `Atoi` reject it alike. -/

/-- The error kinds of `strconv.NumError`. -/
inductive NumError where
  /-- The value `strconv.ErrSyntax`: the string has not the form of a number. -/
  | malformed
  /-- The value `strconv.ErrRange`: the number does not fit the type. -/
  | outOfRange
  deriving DecidableEq, Repr

/-- The constant `intSize`. -/
def intSize : Nat := 64

/-- Whether the byte is one of `0`..`9`. -/
def isDigit (c : Char) : Bool := decide (48 ≤ c.toNat ∧ c.toNat ≤ 57)

/-- The value `c - 48` of a digit. -/
def digitVal (c : Char) : Nat := c.toNat - 48

/-- The loop of the fast path of `Atoi`: `none` is the return of a syntax error. -/
def atoiFast : List Char → Nat → Option Nat
  | [], n => some n
  | ch :: rest, n =>
    if isDigit ch then atoiFast rest (n * 10 + digitVal ch) else none

/-- The cutoff of `ParseUint` for base 10: `maxUint64/10 + 1`. -/
def cutoff10 : Nat := (u64 - 1) / 10 + 1

/-- The value `maxVal` of `ParseUint` for `bitSize = 64`: `1<<64 - 1`. -/
def maxVal : Nat := 2 ^ intSize - 1

/-- The loop of `ParseUint(s, 10, 0)` over the remaining bytes, with the
accumulator `n`. A letter is a digit of value at least 10, which is not below the
base, and returns the same syntax error as any other byte that is no digit. -/
def parseUintLoop : List Char → Nat → Nat × Option NumError
  | [], n => (n, none)
  | c :: rest, n =>
    if isDigit c then
      if n ≥ cutoff10 then (maxVal, some NumError.outOfRange)
      else
        let n10 := (n * 10) % u64
        let n1 := (n10 + digitVal c) % u64
        if n1 < n10 ∨ n1 > maxVal then (maxVal, some NumError.outOfRange)
        else parseUintLoop rest n1
    else (0, some NumError.malformed)

/-- The function `strconv.ParseUint(s, 10, 0)`. -/
def ParseUint (s : List Char) : Nat × Option NumError :=
  if s = [] then (0, some NumError.malformed) else parseUintLoop s 0

/-- The function `strconv.ParseInt(s, 10, 0)`. -/
def ParseInt (s : List Char) : Int × Option NumError :=
  match s with
  | [] => (0, some NumError.malformed)
  | c :: rest =>
    let neg := c = '-'
    let digits := if c = '+' ∨ c = '-' then rest else c :: rest
    let r := ParseUint digits
    if r.2 = some NumError.malformed then (0, some NumError.malformed)
    else
      let cutoff : Nat := 2 ^ (intSize - 1)
      if ¬ neg ∧ r.1 ≥ cutoff then ((cutoff : Int) - 1, some NumError.outOfRange)
      else if neg ∧ r.1 > cutoff then (-(cutoff : Int), some NumError.outOfRange)
      else (if neg then -(r.1 : Int) else (r.1 : Int), none)

/-- The function `strconv.Atoi`: the integer and the error it returns. -/
def Atoi (s : String) : Int × Option NumError :=
  let sLen := s.length
  if 0 < sLen ∧ sLen < 19 then
    match s.toList with
    | [] => (0, some NumError.malformed)
    | c :: rest =>
      let digits := if c = '-' ∨ c = '+' then rest else c :: rest
      if digits.length < 1 then (0, some NumError.malformed)
      else
        match atoiFast digits 0 with
        | none => (0, some NumError.malformed)
        | some n => (if c = '-' then -(n : Int) else (n : Int), none)
  else ParseInt s.toList

/-! ## The decimal reading of a string, for comparison with `Atoi` -/

/-- The number written by a string of decimal digits, most significant first. -/
def digitsValue (ds : List Char) : Nat :=
  ds.foldl (fun acc c => acc * 10 + digitVal c) 0

/-- Whether the characters are decimal digits, at least one of them. -/
def isDigits (ds : List Char) : Bool := decide (ds ≠ []) && ds.all isDigit

/-- The integer a string denotes in decimal: an optional sign and then one or more
digits; `none` for any other string. -/
def decimalValue (s : String) : Option Int :=
  match s.toList with
  | [] => none
  | c :: rest =>
    if c = '-' then (if isDigits rest then some (-(digitsValue rest : Int)) else none)
    else if c = '+' then (if isDigits rest then some (digitsValue rest : Int) else none)
    else if isDigits (c :: rest) then some (digitsValue (c :: rest) : Int) else none

/-- The characters of a string after its sign, if it has one. -/
def unsignedPart (s : String) : List Char :=
  match s.toList with
  | [] => []
  | c :: rest => if c = '+' ∨ c = '-' then rest else c :: rest

/-- The digits of a string from its sign, if it has one, up to its first character
that is no digit. -/
def leadingDigits (s : String) : List Char := (unsignedPart s).takeWhile isDigit

/-- The bound of the `int` range on the side of the sign of a string: the smallest
`int` if the string begins with `-`, the largest `int` otherwise. -/
def intBound (s : String) : Int :=
  if s.toList.head? = some '-' then -(2 ^ 63) else 2 ^ 63 - 1

/-! ## The world around `DownloadFile`

The filesystem maps a path to the content of the file stored there. No other
process touches it during the call. -/

/-- A filesystem: the content of the file at each path, `none` where there is none. -/
abbrev FS := String → Option Bytes

/-- The type `http.Header`: the values stored under each key. -/
abbrev HttpHeader := String → List String

/-- The method `Header.Get`: the first value under the key, `""` if there is none. -/
def HttpHeader.Get (h : HttpHeader) (key : String) : String := (h key).headD ""

/-- One `Read` on the response body that returns data and a nil error, with the
reading of the clock at the moment the reporter renders it. -/
structure Chunk where
  data : Bytes
  clock : Time

/-- An `http.Response`, as far as `DownloadFile` can see it. After the reads of
`Body` the next `Read` returns no data and `BodyErr`, which is `io.EOF` when the
stream ended and the error of the transport when it broke. -/
structure Response where
  StatusCode : Int
  Header : HttpHeader
  Body : List Chunk
  BodyErr : Error

/-- Everything `DownloadFile` depends on besides its arguments. -/
structure World where
  /-- The filesystem when `DownloadFile` is called. -/
  fs : FS
  /-- The reading of the clock when `DownloadFile` is called. No statement of
  `DownloadFile` reads the clock at that moment. -/
  start : Time
  /-- The error of `os.Create`, `none` when it succeeds. -/
  createFault : Option Error
  /-- What `http.Get` returns for each URL. -/
  httpGet : String → Except Error Response
  /-- When `some (cap, e)`: the temp file takes `cap` bytes in all, and a `Write`
  that would exceed them stores what fits and returns the error `e`. -/
  diskFault : Option (Nat × Error)
  /-- The error of `os.Rename`, `none` when it succeeds. -/
  renameFault : Option Error

/-- An operation on the outside world, recorded when it is attempted, whether it
succeeds or fails. `Write` carries the bytes the file took. `Newline` is
`fmt.Print("\n")`, `Remove` is `os.Remove`. -/
inductive Event where
  | Create (name : String)
  | Get (url : String)
  | Write (name : String) (p : Bytes)
  | CloseFile (name : String)
  | Newline
  | Rename (oldpath newpath : String)
  | Remove (name : String)
  | CloseBody
  deriving DecidableEq, Repr

/-- The function `os.Create`: creates the file or truncates it. -/
def osCreate (fs : FS) (name : String) (fault : Option Error) : Except Error FS :=
  match fault with
  | some e => Except.error e
  | none => Except.ok (Function.update fs name (some []))

/-- The function `os.Rename`: it replaces `newpath` if it exists, and a rename
that fails leaves the filesystem as it was. -/
def osRename (fs : FS) (oldpath newpath : String) (fault : Option Error) :
    Except Error FS :=
  match fault with
  | some e => Except.error e
  | none =>
    match fs oldpath with
    | none => Except.error ⟨"no such file or directory"⟩
    | some content =>
      Except.ok (Function.update (Function.update fs oldpath none) newpath (some content))

/-- The method `File.Write` on the open temp file: the bytes are appended; the
result is the filesystem, the count `n` and the error. -/
def fileWrite (fs : FS) (name : String) (p : Bytes) (fault : Option (Nat × Error)) :
    FS × Nat × Option Error :=
  let cur := (fs name).getD []
  match fault with
  | none => (Function.update fs name (some (cur ++ p)), p.length, none)
  | some (cap, e) =>
    if cur.length + p.length ≤ cap then
      (Function.update fs name (some (cur ++ p)), p.length, none)
    else
      (Function.update fs name (some (cur ++ p.take (cap - cur.length))),
        cap - cur.length, some e)

/-- What a call returns that has only an error result: nil, an error, or no
return because of a panic. -/
inductive Result where
  | nil
  | err (e : Error)
  | panic
  deriving DecidableEq, Repr

/-- The method `Read` of the `io.TeeReader(resp.Body, counter)`, when the body
returned `data` and the error `rerr`: the data goes through `counter.Write`, and
is returned as read unless that `Write` reports an error. -/
def teeRead (wc : WriteCounter) (data : Bytes) (rerr : Option Error) (now : Time) :
    Call (Bytes × Option Error) :=
  if data.length > 0 then
    match (wc.Write data now).ret with
    | none => ⟨(wc.Write data now).wc, none⟩
    | some (n, some e) => ⟨(wc.Write data now).wc, some (data.take n, some e)⟩
    | some (_, none) => ⟨(wc.Write data now).wc, some (data, rerr)⟩
  else ⟨wc, some (data, rerr)⟩

/-- The state of the copy loop. Each entry of `trace` is an operation and the
filesystem right after it, oldest first. -/
structure CopyState where
  fs : FS
  counter : WriteCounter
  trace : List (Event × FS)

/-- How the loop of `io.Copy` ends on the error `er` of a `Read`. -/
def endOfRead (er : Error) : Result :=
  if er = EOF then Result.nil else Result.err er

/-- The loop of `io.Copy(out, io.TeeReader(resp.Body, counter))`, where `out` is
the open file at `name`: read through the tee, write what was read to the file,
stop at the first error of a `Write`, at a short `Write`, or at the first error
of a `Read`, which is no failure when it is `io.EOF`. A `File.Write` returns a
count between 0 and the length of its argument, so that the guard of `io.Copy`
against other counts never fires and is left out. The byte count `io.Copy`
returns is discarded by `DownloadFile`. -/
def ioCopy (name : String) (fault : Option (Nat × Error)) (final : Error) :
    List Chunk → CopyState → CopyState × Result
  | [], st => (st, endOfRead final)
  | c :: rest, st =>
    match (teeRead st.counter c.data none c.clock).ret with
    | none => ({ st with counter := (teeRead st.counter c.data none c.clock).wc }, Result.panic)
    | some (buf, er) =>
      let st1 := { st with counter := (teeRead st.counter c.data none c.clock).wc }
      if buf.length > 0 then
        let w := fileWrite st1.fs name buf fault
        let st2 := { st1 with
          fs := w.1, trace := st1.trace ++ [(Event.Write name (buf.take w.2.1), w.1)] }
        match w.2.2 with
        | some ew => (st2, Result.err ew)
        | none =>
          if buf.length ≠ w.2.1 then (st2, Result.err ErrShortWrite)
          else
            match er with
            | some e => (st2, endOfRead e)
            | none => ioCopy name fault final rest st2
      else
        match er with
        | some e => (st1, endOfRead e)
        | none => ioCopy name fault final rest st1

/-- The counter `DownloadFile` builds, lines 80 to 89: the bar gets the integer
`strconv.Atoi` returned for the `Content-Length` header, the error of `Atoi` is
dropped, and the fields `Total`, `LastCounter` and `StartTime` keep their zero
values. -/
def newCounter (resp : Response) : WriteCounter :=
  let fileSize := (Atoi (resp.Header.Get "Content-Length")).1
  { Total := 0, LastCounter := 0, StartTime := 0,
    Progress := some
      { max := fileSize, description := "Downloading...", width := 15,
        showCount := true, calls := [] } }

/-- What a call of `DownloadFile` did. -/
structure Run where
  /-- The error returned. -/
  ret : Result
  /-- The filesystem after the call. -/
  fs : FS
  /-- The operations performed, each with the filesystem right after it. -/
  trace : List (Event × FS)
  /-- The progress reporter after the call, `none` if none was built. -/
  counter : Option WriteCounter

/-- The function `DownloadFile(filepath, url)`: create `filepath + ".tmp"`, get
the URL, build the counter, copy the body through the tee into the temp file,
print a newline, close the file and rename it to `filepath`. Each failure returns
at once, after closing the file where the source does; the deferred
`resp.Body.Close()` runs last on every return that follows a successful GET. -/
def DownloadFile (w : World) (filepath url : String) : Run :=
  let tmp := filepath ++ ".tmp"
  match osCreate w.fs tmp w.createFault with
  | Except.error e => ⟨Result.err e, w.fs, [(Event.Create tmp, w.fs)], none⟩
  | Except.ok fs1 =>
    match w.httpGet url with
    | Except.error e =>
      ⟨Result.err e, fs1,
        [(Event.Create tmp, fs1), (Event.Get url, fs1), (Event.CloseFile tmp, fs1)], none⟩
    | Except.ok resp =>
      let c := ioCopy tmp w.diskFault resp.BodyErr resp.Body
        ⟨fs1, newCounter resp, [(Event.Create tmp, fs1), (Event.Get url, fs1)]⟩
      match c.2 with
      | Result.panic =>
        ⟨Result.panic, c.1.fs, c.1.trace ++ [(Event.CloseBody, c.1.fs)], some c.1.counter⟩
      | Result.err e =>
        ⟨Result.err e, c.1.fs,
          c.1.trace ++ [(Event.CloseFile tmp, c.1.fs), (Event.CloseBody, c.1.fs)],
          some c.1.counter⟩
      | Result.nil =>
        match osRename c.1.fs tmp filepath w.renameFault with
        | Except.error e =>
          ⟨Result.err e, c.1.fs,
            c.1.trace ++ [(Event.Newline, c.1.fs), (Event.CloseFile tmp, c.1.fs),
              (Event.Rename tmp filepath, c.1.fs), (Event.CloseBody, c.1.fs)],
            some c.1.counter⟩
        | Except.ok fs3 =>
          ⟨Result.nil, fs3,
            c.1.trace ++ [(Event.Newline, c.1.fs), (Event.CloseFile tmp, c.1.fs),
              (Event.Rename tmp filepath, fs3), (Event.CloseBody, fs3)],
            some c.1.counter⟩

/-! ## Observations and comparison functions used in the statements -/

/-- The bytes of a body, in the order read. -/
def bodyBytes : List Chunk → Bytes
  | [] => []
  | c :: rest => c.data ++ bodyBytes rest

/-- The operations of a trace, without the filesystems. -/
def events (t : List (Event × FS)) : List Event := t.map Prod.fst

/-- The counter after the chunks were passed to `Write` one after another. -/
def writeAll (wc : WriteCounter) : List Chunk → WriteCounter
  | [] => wc
  | c :: rest => writeAll (wc.Write c.data c.clock).wc rest

/-- The sum of the lengths of the chunks. -/
def totalLength : List Chunk → Nat
  | [] => 0
  | c :: rest => c.data.length + totalLength rest

/-- The part of `body` the temp file takes when it holds `cur` bytes already. -/
def accepted (fault : Option (Nat × Error)) (cur : Nat) (body : Bytes) : Bytes :=
  match fault with
  | none => body
  | some (cap, _) => body.take (cap - cur)

/-- How a copy of `total` bytes ends on a file that holds `cur` bytes already. -/
def copyResult (fault : Option (Nat × Error)) (cur total : Nat) (final : Error) : Result :=
  match fault with
  | none => endOfRead final
  | some (cap, e) => if cur + total ≤ cap then endOfRead final else Result.err e

/-- The bytes the `Write` operations of a trace stored in the file at `name`. -/
def written (name : String) (t : List (Event × FS)) : Bytes :=
  t.foldr (fun x acc =>
    match x.1 with
    | Event.Write n q => if n = name then q ++ acc else acc
    | _ => acc) []

/-- The first byte count and error at which the copy of the body of `resp` fails:
at the capacity of the file if the body exceeds it, otherwise after the whole body
if its last `Read` returns an error other than `io.EOF`; `none` if neither. -/
def copyFailure (fault : Option (Nat × Error)) (resp : Response) : Option (Nat × Error) :=
  match fault with
  | some (cap, e) =>
    if cap < totalLength resp.Body then some (cap, e)
    else if resp.BodyErr = EOF then none
    else some (totalLength resp.Body, resp.BodyErr)
  | none =>
    if resp.BodyErr = EOF then none else some (totalLength resp.Body, resp.BodyErr)

/-- The call `io.Copy(out, io.TeeReader(resp.Body, counter))` as `DownloadFile`
makes it: on the filesystem `os.Create` left, with the counter just built. -/
def copyStep (w : World) (filepath url : String) (resp : Response) : CopyState × Result :=
  ioCopy (filepath ++ ".tmp") w.diskFault resp.BodyErr resp.Body
    ⟨Function.update w.fs (filepath ++ ".tmp") (some []), newCounter resp,
      [(Event.Create (filepath ++ ".tmp"),
          Function.update w.fs (filepath ++ ".tmp") (some [])),
        (Event.Get url, Function.update w.fs (filepath ++ ".tmp") (some []))]⟩

/-- The operations of a trace after which the content at `path` differs from the
content before them; `prev` is the content before the first operation. -/
def changesOf (path : String) : Option Bytes → List (Event × FS) → List Event
  | _, [] => []
  | prev, x :: rest =>
    if x.2 path = prev then changesOf path prev rest
    else x.1 :: changesOf path (x.2 path) rest

/-- The total the progress bar of a run was built with, `none` if the run built
no bar. -/
def barMax (r : Run) : Option Int :=
  (r.counter.bind WriteCounter.Progress).map ProgressBar.max

/-- The operands `(downloaded, elapsed)` of the division behind every status line
a run rendered, oldest first; `elapsed` in nanoseconds. -/
def rendered (r : Run) : List (Nat × Duration) :=
  match r.counter.bind WriteCounter.Progress with
  | none => []
  | some bar =>
    bar.calls.filterMap fun c =>
      match c with
      | BarCall.Describe s => some (s.downloaded, s.elapsed)
      | _ => none

/-- The speeds of the status lines a run rendered, oldest first. -/
def renderedSpeeds (r : Run) : List ℚ :=
  match r.counter.bind WriteCounter.Progress with
  | none => []
  | some bar =>
    bar.calls.filterMap fun c =>
      match c with
      | BarCall.Describe s => some s.speed
      | _ => none

/-- The rate as the specification words it: the bytes transferred since the start
of the measurement window, divided by the seconds elapsed since the download
began at `start`. -/
def specRate (downloaded : Nat) (now start : Time) : ℚ :=
  (downloaded : ℚ) / Duration.Seconds (now - start)

/-- The world with the status code of every response replaced by 0: what is left
of a world when the status codes are not looked at. -/
def eraseStatus (w : World) : World :=
  { w with
    httpGet := fun u =>
      match w.httpGet u with
      | Except.error e => Except.error e
      | Except.ok r => Except.ok { r with StatusCode := 0 } }

/-! ## Worlds used as examples -/

/-- A header with the given `Content-Length` and nothing else. -/
def contentLength (v : String) : HttpHeader :=
  fun k => if k = "Content-Length" then [v] else []

/-- A server that answers every URL with the given status and `Content-Length`
and a body of three reads, `[1, 2]`, nothing, `[3]`, then `io.EOF`. -/
def serve (status : Int) (len : String) : String → Except Error Response :=
  fun _ => Except.ok ⟨status, contentLength len,
    [⟨[1, 2], 63900000001000000000⟩, ⟨[], 63900000002000000000⟩,
      ⟨[3], 63900000003000000000⟩], EOF⟩

/-- A world where `mountain.jpg` exists with the content `[9]` and nothing fails. -/
def calm : World :=
  { fs := fun p => if p = "mountain.jpg" then some [9] else none
    start := 63900000000000000000
    createFault := none
    httpGet := serve 200 "3"
    diskFault := none
    renameFault := none }

/-- The world `calm` with an `os.Create` that fails. -/
def denied : World := { calm with createFault := some ⟨"permission denied"⟩ }

/-- The world `calm` with a temp file that takes one byte only. -/
def diskFull : World := { calm with diskFault := some (1, ⟨"no space left on device"⟩) }

/-- The world `calm` with a server that answers 404 with the same headers and body. -/
def notFound : World := { calm with httpGet := serve 404 "3" }

/-- The world `calm` with a server that announces a length of twenty nines. -/
def hugeLength : World := { calm with httpGet := serve 200 "99999999999999999999" }

/-- A counter whose `Total` is the largest `uint64`. -/
def fullCounter : WriteCounter :=
  { Total := 18446744073709551615, LastCounter := 18446744073709551615, StartTime := 0,
    Progress := some
      { max := 0, description := "Downloading...", width := 15, showCount := true,
        calls := [] } }

/-- A counter whose `Total` is two bytes short of the largest `uint64`. -/
def nearFull : WriteCounter :=
  { Total := 18446744073709551613, LastCounter := 18446744073709551613, StartTime := 0,
    Progress := some
      { max := 0, description := "Downloading...", width := 15, showCount := true,
        calls := [] } }

/-! # Theorems -/

/-! ## Constants -/

theorem u64_eq : u64 = 18446744073709551616 := by decide

theorem cutoff10_eq : cutoff10 = 1844674407370955162 := by decide

theorem maxVal_eq : maxVal = 18446744073709551615 := by decide

/-! ## Lemmas on the counter -/

theorem Write_ret_of_some (wc : WriteCounter) (p : Bytes) (now : Time) (bar : ProgressBar)
    (h : wc.Progress = some bar) : (wc.Write p now).ret = some (p.length, none) := by
  simp [WriteCounter.Write, WriteCounter.PrintProgress, h]

theorem Write_Total (wc : WriteCounter) (p : Bytes) (now : Time) :
    (wc.Write p now).wc.Total = (wc.Total + p.length) % u64 := by
  cases h : wc.Progress <;> simp [WriteCounter.Write, WriteCounter.PrintProgress, h]

theorem PrintProgress_Total (wc : WriteCounter) (now : Time) :
    (wc.PrintProgress now).wc.Total = wc.Total := by
  cases h : wc.Progress <;> simp [WriteCounter.PrintProgress, h]

theorem Write_Progress (wc : WriteCounter) (p : Bytes) (now : Time) (bar : ProgressBar)
    (h : wc.Progress = some bar) :
    ∃ bar1, (wc.Write p now).wc.Progress = some bar1 ∧ bar1.max = bar.max := by
  simp [WriteCounter.Write, WriteCounter.PrintProgress, h, ProgressBar.call]

theorem writeAll_Total (chunks : List Chunk) (wc : WriteCounter) :
    (writeAll wc chunks).Total % u64 = (wc.Total + totalLength chunks) % u64 := by
  induction chunks generalizing wc with
  | nil => simp [writeAll, totalLength]
  | cons c rest ih =>
    rw [writeAll, ih, Write_Total, totalLength, Nat.add_mod, Nat.mod_mod, ← Nat.add_mod,
      Nat.add_assoc]

theorem writeAll_lt (chunks : List Chunk) (wc : WriteCounter) (h : wc.Total < u64) :
    (writeAll wc chunks).Total < u64 := by
  induction chunks generalizing wc with
  | nil => simpa [writeAll] using h
  | cons c rest ih =>
    rw [writeAll]
    apply ih
    rw [Write_Total]
    exact Nat.mod_lt _ (by decide)

/-! ## Lemmas on the copy loop -/

theorem totalLength_eq (chunks : List Chunk) :
    totalLength chunks = (bodyBytes chunks).length := by
  induction chunks with
  | nil => rfl
  | cons c rest ih => simp [totalLength, bodyBytes, ih]

theorem teeRead_ret (wc : WriteCounter) (data : Bytes) (rerr : Option Error) (now : Time)
    (bar : ProgressBar) (h : wc.Progress = some bar) :
    (teeRead wc data rerr now).ret = some (data, rerr) := by
  unfold teeRead
  split
  · rw [Write_ret_of_some wc data now bar h]
  · rfl

theorem teeRead_wc (wc : WriteCounter) (data : Bytes) (rerr : Option Error) (now : Time)
    (bar : ProgressBar) (h : wc.Progress = some bar) :
    (teeRead wc data rerr now).wc = if data.length > 0 then (wc.Write data now).wc else wc := by
  unfold teeRead
  split
  · rw [Write_ret_of_some wc data now bar h]
  · rfl

theorem ioCopy_nil (name : String) (fault : Option (Nat × Error)) (final : Error)
    (st : CopyState) : ioCopy name fault final [] st = (st, endOfRead final) := by
  rw [ioCopy]

theorem ioCopy_cons_empty (name : String) (fault : Option (Nat × Error)) (final : Error)
    (c : Chunk) (rest : List Chunk) (st : CopyState) (bar : ProgressBar)
    (hP : st.counter.Progress = some bar) (hc : c.data = []) :
    ioCopy name fault final (c :: rest) st = ioCopy name fault final rest st := by
  rw [ioCopy, teeRead_ret _ _ _ _ bar hP, teeRead_wc _ _ _ _ bar hP]
  simp [hc]

theorem ioCopy_cons_fit (name : String) (fault : Option (Nat × Error)) (final : Error)
    (c : Chunk) (rest : List Chunk) (st : CopyState) (bar : ProgressBar) (cur : Bytes)
    (hP : st.counter.Progress = some bar) (hc : c.data ≠ []) (hfs : st.fs name = some cur)
    (hfit : ∀ cap e, fault = some (cap, e) → cur.length + c.data.length ≤ cap) :
    ioCopy name fault final (c :: rest) st =
      ioCopy name fault final rest
        ⟨Function.update st.fs name (some (cur ++ c.data)),
          (st.counter.Write c.data c.clock).wc,
          st.trace ++ [(Event.Write name c.data,
            Function.update st.fs name (some (cur ++ c.data)))]⟩ := by
  have hpos : c.data.length > 0 := List.length_pos.mpr hc
  rw [ioCopy, teeRead_ret _ _ _ _ bar hP, teeRead_wc _ _ _ _ bar hP]
  rcases fault with _ | ⟨cap, e⟩
  · simp [hpos, fileWrite, hfs]
  · have := hfit cap e rfl
    simp [hpos, fileWrite, hfs, this]

theorem ioCopy_cons_full (name : String) (final : Error)
    (c : Chunk) (rest : List Chunk) (st : CopyState) (bar : ProgressBar) (cur : Bytes)
    (cap : Nat) (e : Error)
    (hP : st.counter.Progress = some bar) (hc : c.data ≠ []) (hfs : st.fs name = some cur)
    (hfull : cap < cur.length + c.data.length) :
    ioCopy name (some (cap, e)) final (c :: rest) st =
      (⟨Function.update st.fs name (some (cur ++ c.data.take (cap - cur.length))),
          (st.counter.Write c.data c.clock).wc,
          st.trace ++ [(Event.Write name (c.data.take (cap - cur.length)),
            Function.update st.fs name (some (cur ++ c.data.take (cap - cur.length))))]⟩,
        Result.err e) := by
  have hpos : c.data.length > 0 := List.length_pos.mpr hc
  rw [ioCopy, teeRead_ret _ _ _ _ bar hP, teeRead_wc _ _ _ _ bar hP]
  simp [hpos, fileWrite, hfs, Nat.not_le.mpr hfull]

theorem written_append (name : String) (a b : List (Event × FS)) :
    written name (a ++ b) =
      a.foldr (fun x acc =>
        match x.1 with
        | Event.Write n q => if n = name then q ++ acc else acc
        | _ => acc) (written name b) := by
  simp [written, List.foldr_append]

theorem written_cons_write (name : String) (q : Bytes) (fs : FS) (rest : List (Event × FS)) :
    written name ((Event.Write name q, fs) :: rest) = q ++ written name rest := by
  simp [written]

theorem accepted_fit (fault : Option (Nat × Error)) (cur : Nat) (data body : Bytes)
    (hfit : ∀ cap e, fault = some (cap, e) → cur + data.length ≤ cap) :
    accepted fault cur (data ++ body) = data ++ accepted fault (cur + data.length) body := by
  rcases fault with _ | ⟨cap, e⟩
  · rfl
  · have h := hfit cap e rfl
    simp only [accepted]
    rw [List.take_append_eq_append_take, List.take_of_length_le (by omega), Nat.sub_sub]

theorem accepted_full (cap : Nat) (e : Error) (cur : Nat) (data body : Bytes)
    (hfull : cap < cur + data.length) :
    accepted (some (cap, e)) cur (data ++ body) = data.take (cap - cur) := by
  simp only [accepted]
  rw [List.take_append_eq_append_take]
  have : cap - cur - data.length = 0 := by omega
  simp [this]

theorem ioCopy_spec (name : String) (fault : Option (Nat × Error)) (final : Error)
    (chunks : List Chunk) (st : CopyState) (bar : ProgressBar) (cur : Bytes)
    (hP : st.counter.Progress = some bar) (hfs : st.fs name = some cur)
    (hcap : ∀ cap e, fault = some (cap, e) → cur.length ≤ cap) :
    (ioCopy name fault final chunks st).2
        = copyResult fault cur.length (totalLength chunks) final ∧
    (ioCopy name fault final chunks st).1.fs
        = Function.update st.fs name
            (some (cur ++ accepted fault cur.length (bodyBytes chunks))) ∧
    (∃ bar1, (ioCopy name fault final chunks st).1.counter.Progress = some bar1 ∧
        bar1.max = bar.max) ∧
    (∃ evs, (ioCopy name fault final chunks st).1.trace = st.trace ++ evs ∧
        written name evs = accepted fault cur.length (bodyBytes chunks) ∧
        ∀ x ∈ evs, (∃ q, x.1 = Event.Write name q) ∧ ∀ p, p ≠ name → x.2 p = st.fs p) := by
  induction chunks generalizing st bar cur with
  | nil =>
    rw [ioCopy_nil]
    refine ⟨?_, ?_, ⟨bar, hP, rfl⟩, ⟨[], by simp, ?_, by simp⟩⟩
    · rcases fault with _ | ⟨cap, e⟩
      · rfl
      · simp [copyResult, totalLength, hcap cap e rfl]
    · have : accepted fault cur.length (bodyBytes []) = [] := by
        rcases fault with _ | ⟨cap, e⟩ <;> simp [accepted, bodyBytes]
      rw [this, List.append_nil, ← hfs, Function.update_eq_self]
    · rcases fault with _ | ⟨cap, e⟩ <;> simp [accepted, bodyBytes, written]
  | cons c rest ih =>
    by_cases hc : c.data = []
    · rw [ioCopy_cons_empty name fault final c rest st bar hP hc]
      have h := ih st bar cur hP hfs hcap
      simpa [totalLength, bodyBytes, hc] using h
    · by_cases hfit : ∀ cap e, fault = some (cap, e) → cur.length + c.data.length ≤ cap
      · rw [ioCopy_cons_fit name fault final c rest st bar cur hP hc hfs hfit]
        obtain ⟨bar1, hb1, hm1⟩ := Write_Progress st.counter c.data c.clock bar hP
        have h := ih
          ⟨Function.update st.fs name (some (cur ++ c.data)),
            (st.counter.Write c.data c.clock).wc,
            st.trace ++ [(Event.Write name c.data,
              Function.update st.fs name (some (cur ++ c.data)))]⟩
          bar1 (cur ++ c.data) hb1 (by simp)
          (by intro cap e hf; rw [List.length_append]; exact hfit cap e hf)
        obtain ⟨h1, h2, ⟨bar2, hb2, hm2⟩, ⟨evs, he1, he2, he3⟩⟩ := h
        refine ⟨?_, ?_, ⟨bar2, hb2, hm2.trans hm1⟩,
          ⟨(Event.Write name c.data, Function.update st.fs name (some (cur ++ c.data))) :: evs,
            ?_, ?_, ?_⟩⟩
        · rw [h1]
          rcases fault with _ | ⟨cap, e⟩
          · rfl
          · simp [copyResult, totalLength, Nat.add_assoc]
        · rw [h2, bodyBytes, accepted_fit fault cur.length c.data _ hfit]
          simp [List.length_append]
        · rw [he1]; simp
        · rw [written_cons_write, he2, bodyBytes, accepted_fit fault cur.length c.data _ hfit]
          simp [List.length_append]
        · intro x hx
          rcases List.mem_cons.mp hx with rfl | hx
          · exact ⟨⟨_, rfl⟩, fun p hp => by simp [Function.update_noteq hp]⟩
          · obtain ⟨hq, hp⟩ := he3 x hx
            exact ⟨hq, fun p hne => by rw [hp p hne]; simp [Function.update_noteq hne]⟩
      · push_neg at hfit
        obtain ⟨cap, e, rfl, hlt⟩ := hfit
        rw [ioCopy_cons_full name final c rest st bar cur cap e hP hc hfs hlt]
        obtain ⟨bar1, hb1, hm1⟩ := Write_Progress st.counter c.data c.clock bar hP
        refine ⟨?_, ?_, ⟨bar1, hb1, hm1⟩,
          ⟨[(Event.Write name (c.data.take (cap - cur.length)),
            Function.update st.fs name (some (cur ++ c.data.take (cap - cur.length))))],
            rfl, ?_, ?_⟩⟩
        · have : ¬ (cur.length + totalLength (c :: rest) ≤ cap) := by
            simp only [totalLength]; omega
          simp [copyResult, this]
        · simp only [bodyBytes]
          rw [accepted_full cap e cur.length c.data _ hlt]
        · simp only [bodyBytes]
          rw [accepted_full cap e cur.length c.data _ hlt, written_cons_write]
          simp [written]
        · intro x hx
          rw [List.mem_singleton] at hx
          subst hx
          exact ⟨⟨_, rfl⟩, fun p hp => by simp [Function.update_noteq hp]⟩

/-! ## Lemmas on `DownloadFile` -/

theorem tmp_ne (filepath : String) : filepath ++ ".tmp" ≠ filepath := by
  intro h
  have h1 := congrArg String.length h
  rw [String.length_append] at h1
  have h2 : ".tmp".length = 4 := by decide
  omega

theorem copyResult_of_failure (fault : Option (Nat × Error)) (resp : Response) (k : Nat)
    (e : Error) (h : copyFailure fault resp = some (k, e)) :
    copyResult fault 0 (totalLength resp.Body) resp.BodyErr = Result.err e ∧
      accepted fault 0 (bodyBytes resp.Body) = (bodyBytes resp.Body).take k := by
  rcases fault with _ | ⟨cap, e1⟩
  · simp only [copyFailure] at h
    split at h
    · exact absurd h (by simp)
    · rename_i hne
      simp only [Option.some.injEq, Prod.mk.injEq] at h
      obtain ⟨rfl, rfl⟩ := h
      simp [copyResult, endOfRead, hne, accepted, totalLength_eq]
  · simp only [copyFailure] at h
    split at h
    · rename_i hlt
      simp only [Option.some.injEq, Prod.mk.injEq] at h
      obtain ⟨rfl, rfl⟩ := h
      simp [copyResult, accepted, Nat.not_le.mpr hlt]
    · rename_i hge
      split at h
      · exact absurd h (by simp)
      · rename_i hne
        simp only [Option.some.injEq, Prod.mk.injEq] at h
        obtain ⟨rfl, rfl⟩ := h
        have hle : totalLength resp.Body ≤ cap := Nat.le_of_not_lt hge
        have hle2 : (bodyBytes resp.Body).length ≤ cap := by rw [← totalLength_eq]; exact hle
        simp [copyResult, endOfRead, hne, accepted, hle2, totalLength_eq,
          List.take_of_length_le hle2]

theorem copyResult_of_none (fault : Option (Nat × Error)) (resp : Response)
    (h : copyFailure fault resp = none) :
    copyResult fault 0 (totalLength resp.Body) resp.BodyErr = Result.nil ∧
      accepted fault 0 (bodyBytes resp.Body) = bodyBytes resp.Body := by
  rcases fault with _ | ⟨cap, e1⟩
  · simp only [copyFailure] at h
    split at h
    · rename_i heq
      simp [copyResult, endOfRead, heq, accepted]
    · exact absurd h (by simp)
  · simp only [copyFailure] at h
    split at h
    · exact absurd h (by simp)
    · rename_i hge
      split at h
      · rename_i heq
        have hle : totalLength resp.Body ≤ cap := Nat.le_of_not_lt hge
        have hle2 : (bodyBytes resp.Body).length ≤ cap := by rw [← totalLength_eq]; exact hle
        simp [copyResult, endOfRead, heq, accepted, hle, List.take_of_length_le hle2]
      · exact absurd h (by simp)

/-- The error `io.Copy` returns in `DownloadFile` is the one `copyFailure` names. -/
theorem ioCopy_ret_copyFailure (w : World) (filepath url : String) (resp : Response) :
    (copyStep w filepath url resp).2 =
      match copyFailure w.diskFault resp with
      | some ke => Result.err ke.2
      | none => Result.nil := by
  unfold copyStep
  obtain ⟨h1, _⟩ :=
    ioCopy_spec (filepath ++ ".tmp") w.diskFault resp.BodyErr resp.Body
      ⟨Function.update w.fs (filepath ++ ".tmp") (some []), newCounter resp,
        [(Event.Create (filepath ++ ".tmp"),
            Function.update w.fs (filepath ++ ".tmp") (some [])),
          (Event.Get url, Function.update w.fs (filepath ++ ".tmp") (some []))]⟩
      _ [] rfl (by simp) (by intros; simp)
  rw [h1]
  cases hk : copyFailure w.diskFault resp with
  | some ke => exact (copyResult_of_failure w.diskFault resp ke.1 ke.2 hk).1
  | none => exact (copyResult_of_none w.diskFault resp hk).1

theorem DownloadFile_create_fail (w : World) (filepath url : String) (e : Error)
    (hc : w.createFault = some e) :
    DownloadFile w filepath url =
      ⟨Result.err e, w.fs, [(Event.Create (filepath ++ ".tmp"), w.fs)], none⟩ := by
  simp [DownloadFile, osCreate, hc]

theorem DownloadFile_get_fail (w : World) (filepath url : String) (e : Error)
    (hc : w.createFault = none) (hg : w.httpGet url = Except.error e) :
    DownloadFile w filepath url =
      ⟨Result.err e, Function.update w.fs (filepath ++ ".tmp") (some []),
        [(Event.Create (filepath ++ ".tmp"), Function.update w.fs (filepath ++ ".tmp") (some [])),
          (Event.Get url, Function.update w.fs (filepath ++ ".tmp") (some [])),
          (Event.CloseFile (filepath ++ ".tmp"),
            Function.update w.fs (filepath ++ ".tmp") (some []))], none⟩ := by
  simp [DownloadFile, osCreate, hc, hg]

/-- The run of `DownloadFile` once the temp file is created and the response is
there, by the outcome of the copy and of the rename. -/
theorem DownloadFile_resp (w : World) (filepath url : String) (resp : Response)
    (hc : w.createFault = none) (hg : w.httpGet url = Except.ok resp) :
    ∃ (cnt : WriteCounter) (bar : ProgressBar) (evs : List (Event × FS)),
      cnt.Progress = some bar ∧
      bar.max = (Atoi (resp.Header.Get "Content-Length")).1 ∧
      written (filepath ++ ".tmp") evs = accepted w.diskFault 0 (bodyBytes resp.Body) ∧
      (∀ x ∈ evs, (∃ q, x.1 = Event.Write (filepath ++ ".tmp") q) ∧
        ∀ p, p ≠ filepath ++ ".tmp" → x.2 p = w.fs p) ∧
      DownloadFile w filepath url =
        match copyResult w.diskFault 0 (totalLength resp.Body) resp.BodyErr with
        | Result.panic =>
          ⟨Result.panic,
            Function.update w.fs (filepath ++ ".tmp")
              (some (accepted w.diskFault 0 (bodyBytes resp.Body))),
            [(Event.Create (filepath ++ ".tmp"),
                Function.update w.fs (filepath ++ ".tmp") (some [])),
              (Event.Get url, Function.update w.fs (filepath ++ ".tmp") (some []))] ++ evs ++
            [(Event.CloseBody, Function.update w.fs (filepath ++ ".tmp")
              (some (accepted w.diskFault 0 (bodyBytes resp.Body))))],
            some cnt⟩
        | Result.err e =>
          ⟨Result.err e,
            Function.update w.fs (filepath ++ ".tmp")
              (some (accepted w.diskFault 0 (bodyBytes resp.Body))),
            [(Event.Create (filepath ++ ".tmp"),
                Function.update w.fs (filepath ++ ".tmp") (some [])),
              (Event.Get url, Function.update w.fs (filepath ++ ".tmp") (some []))] ++ evs ++
            [(Event.CloseFile (filepath ++ ".tmp"),
                Function.update w.fs (filepath ++ ".tmp")
                  (some (accepted w.diskFault 0 (bodyBytes resp.Body)))),
              (Event.CloseBody, Function.update w.fs (filepath ++ ".tmp")
                (some (accepted w.diskFault 0 (bodyBytes resp.Body))))],
            some cnt⟩
        | Result.nil =>
          match w.renameFault with
          | some e =>
            ⟨Result.err e,
              Function.update w.fs (filepath ++ ".tmp")
                (some (accepted w.diskFault 0 (bodyBytes resp.Body))),
              [(Event.Create (filepath ++ ".tmp"),
                  Function.update w.fs (filepath ++ ".tmp") (some [])),
                (Event.Get url, Function.update w.fs (filepath ++ ".tmp") (some []))] ++ evs ++
              [(Event.Newline, Function.update w.fs (filepath ++ ".tmp")
                  (some (accepted w.diskFault 0 (bodyBytes resp.Body)))),
                (Event.CloseFile (filepath ++ ".tmp"),
                  Function.update w.fs (filepath ++ ".tmp")
                    (some (accepted w.diskFault 0 (bodyBytes resp.Body)))),
                (Event.Rename (filepath ++ ".tmp") filepath,
                  Function.update w.fs (filepath ++ ".tmp")
                    (some (accepted w.diskFault 0 (bodyBytes resp.Body)))),
                (Event.CloseBody, Function.update w.fs (filepath ++ ".tmp")
                  (some (accepted w.diskFault 0 (bodyBytes resp.Body))))],
              some cnt⟩
          | none =>
            ⟨Result.nil,
              Function.update (Function.update w.fs (filepath ++ ".tmp") none) filepath
                (some (accepted w.diskFault 0 (bodyBytes resp.Body))),
              [(Event.Create (filepath ++ ".tmp"),
                  Function.update w.fs (filepath ++ ".tmp") (some [])),
                (Event.Get url, Function.update w.fs (filepath ++ ".tmp") (some []))] ++ evs ++
              [(Event.Newline, Function.update w.fs (filepath ++ ".tmp")
                  (some (accepted w.diskFault 0 (bodyBytes resp.Body)))),
                (Event.CloseFile (filepath ++ ".tmp"),
                  Function.update w.fs (filepath ++ ".tmp")
                    (some (accepted w.diskFault 0 (bodyBytes resp.Body)))),
                (Event.Rename (filepath ++ ".tmp") filepath,
                  Function.update (Function.update w.fs (filepath ++ ".tmp") none) filepath
                    (some (accepted w.diskFault 0 (bodyBytes resp.Body)))),
                (Event.CloseBody,
                  Function.update (Function.update w.fs (filepath ++ ".tmp") none) filepath
                    (some (accepted w.diskFault 0 (bodyBytes resp.Body))))],
              some cnt⟩ := by
  obtain ⟨h1, h2, ⟨bar1, hb1, hm1⟩, ⟨evs, he1, he2, he3⟩⟩ :=
    ioCopy_spec (filepath ++ ".tmp") w.diskFault resp.BodyErr resp.Body
      ⟨Function.update w.fs (filepath ++ ".tmp") (some []), newCounter resp,
        [(Event.Create (filepath ++ ".tmp"),
            Function.update w.fs (filepath ++ ".tmp") (some [])),
          (Event.Get url, Function.update w.fs (filepath ++ ".tmp") (some []))]⟩
      _ [] rfl (by simp) (by intros; simp)
  simp only [List.length_nil, List.nil_append, Function.update_idem] at h1 h2 he1 he2 he3
  refine ⟨_, bar1, evs, hb1, hm1, he2, ?_, ?_⟩
  · intro x hx
    obtain ⟨hq, hp⟩ := he3 x hx
    exact ⟨hq, fun p hne => by rw [hp p hne, Function.update_noteq hne]⟩
  · simp only [DownloadFile, osCreate, hc, hg]
    rw [h1, h2, he1]
    cases copyResult w.diskFault 0 (totalLength resp.Body) resp.BodyErr with
    | panic => simp
    | err e => simp
    | nil =>
      cases hr : w.renameFault with
      | some e => simp [osRename]
      | none => simp [osRename, Function.update_idem]

theorem DownloadFile_copy_fail (w : World) (filepath url : String) (resp : Response)
    (k : Nat) (e : Error)
    (hc : w.createFault = none) (hg : w.httpGet url = Except.ok resp)
    (hk : copyFailure w.diskFault resp = some (k, e)) :
    ∃ (cnt : WriteCounter) (bar : ProgressBar) (evs : List (Event × FS)),
      cnt.Progress = some bar ∧
      bar.max = (Atoi (resp.Header.Get "Content-Length")).1 ∧
      written (filepath ++ ".tmp") evs = (bodyBytes resp.Body).take k ∧
      (∀ x ∈ evs, (∃ q, x.1 = Event.Write (filepath ++ ".tmp") q) ∧
        ∀ p, p ≠ filepath ++ ".tmp" → x.2 p = w.fs p) ∧
      DownloadFile w filepath url =
        ⟨Result.err e,
          Function.update w.fs (filepath ++ ".tmp") (some ((bodyBytes resp.Body).take k)),
          [(Event.Create (filepath ++ ".tmp"),
              Function.update w.fs (filepath ++ ".tmp") (some [])),
            (Event.Get url, Function.update w.fs (filepath ++ ".tmp") (some []))] ++ evs ++
          [(Event.CloseFile (filepath ++ ".tmp"),
              Function.update w.fs (filepath ++ ".tmp") (some ((bodyBytes resp.Body).take k))),
            (Event.CloseBody,
              Function.update w.fs (filepath ++ ".tmp") (some ((bodyBytes resp.Body).take k)))],
          some cnt⟩ := by
  obtain ⟨cnt, bar, evs, h1, h2, h3, h4, h5⟩ := DownloadFile_resp w filepath url resp hc hg
  obtain ⟨hr, ha⟩ := copyResult_of_failure w.diskFault resp k e hk
  rw [hr, ha] at h5
  rw [ha] at h3
  exact ⟨cnt, bar, evs, h1, h2, h3, h4, h5⟩

theorem DownloadFile_rename_fail (w : World) (filepath url : String) (resp : Response)
    (e : Error)
    (hc : w.createFault = none) (hg : w.httpGet url = Except.ok resp)
    (hk : copyFailure w.diskFault resp = none) (hr : w.renameFault = some e) :
    ∃ (cnt : WriteCounter) (bar : ProgressBar) (evs : List (Event × FS)),
      cnt.Progress = some bar ∧
      bar.max = (Atoi (resp.Header.Get "Content-Length")).1 ∧
      written (filepath ++ ".tmp") evs = bodyBytes resp.Body ∧
      (∀ x ∈ evs, (∃ q, x.1 = Event.Write (filepath ++ ".tmp") q) ∧
        ∀ p, p ≠ filepath ++ ".tmp" → x.2 p = w.fs p) ∧
      DownloadFile w filepath url =
        ⟨Result.err e,
          Function.update w.fs (filepath ++ ".tmp") (some (bodyBytes resp.Body)),
          [(Event.Create (filepath ++ ".tmp"),
              Function.update w.fs (filepath ++ ".tmp") (some [])),
            (Event.Get url, Function.update w.fs (filepath ++ ".tmp") (some []))] ++ evs ++
          [(Event.Newline,
              Function.update w.fs (filepath ++ ".tmp") (some (bodyBytes resp.Body))),
            (Event.CloseFile (filepath ++ ".tmp"),
              Function.update w.fs (filepath ++ ".tmp") (some (bodyBytes resp.Body))),
            (Event.Rename (filepath ++ ".tmp") filepath,
              Function.update w.fs (filepath ++ ".tmp") (some (bodyBytes resp.Body))),
            (Event.CloseBody,
              Function.update w.fs (filepath ++ ".tmp") (some (bodyBytes resp.Body)))],
          some cnt⟩ := by
  obtain ⟨cnt, bar, evs, h1, h2, h3, h4, h5⟩ := DownloadFile_resp w filepath url resp hc hg
  obtain ⟨hn, ha⟩ := copyResult_of_none w.diskFault resp hk
  rw [hn, ha, hr] at h5
  rw [ha] at h3
  exact ⟨cnt, bar, evs, h1, h2, h3, h4, h5⟩

theorem DownloadFile_success (w : World) (filepath url : String) (resp : Response)
    (hc : w.createFault = none) (hg : w.httpGet url = Except.ok resp)
    (hk : copyFailure w.diskFault resp = none) (hr : w.renameFault = none) :
    ∃ (cnt : WriteCounter) (bar : ProgressBar) (evs : List (Event × FS)),
      cnt.Progress = some bar ∧
      bar.max = (Atoi (resp.Header.Get "Content-Length")).1 ∧
      written (filepath ++ ".tmp") evs = bodyBytes resp.Body ∧
      (∀ x ∈ evs, (∃ q, x.1 = Event.Write (filepath ++ ".tmp") q) ∧
        ∀ p, p ≠ filepath ++ ".tmp" → x.2 p = w.fs p) ∧
      DownloadFile w filepath url =
        ⟨Result.nil,
          Function.update (Function.update w.fs (filepath ++ ".tmp") none) filepath
            (some (bodyBytes resp.Body)),
          [(Event.Create (filepath ++ ".tmp"),
              Function.update w.fs (filepath ++ ".tmp") (some [])),
            (Event.Get url, Function.update w.fs (filepath ++ ".tmp") (some []))] ++ evs ++
          [(Event.Newline,
              Function.update w.fs (filepath ++ ".tmp") (some (bodyBytes resp.Body))),
            (Event.CloseFile (filepath ++ ".tmp"),
              Function.update w.fs (filepath ++ ".tmp") (some (bodyBytes resp.Body))),
            (Event.Rename (filepath ++ ".tmp") filepath,
              Function.update (Function.update w.fs (filepath ++ ".tmp") none) filepath
                (some (bodyBytes resp.Body))),
            (Event.CloseBody,
              Function.update (Function.update w.fs (filepath ++ ".tmp") none) filepath
                (some (bodyBytes resp.Body)))],
          some cnt⟩ := by
  obtain ⟨cnt, bar, evs, h1, h2, h3, h4, h5⟩ := DownloadFile_resp w filepath url resp hc hg
  obtain ⟨hn, ha⟩ := copyResult_of_none w.diskFault resp hk
  rw [hn, ha, hr] at h5
  rw [ha] at h3
  exact ⟨cnt, bar, evs, h1, h2, h3, h4, h5⟩

/-- The return value of `DownloadFile`, by the outcomes of its four steps. -/
theorem DownloadFile_ret (w : World) (filepath url : String) :
    (DownloadFile w filepath url).ret =
      match w.createFault with
      | some e => Result.err e
      | none =>
        match w.httpGet url with
        | Except.error e => Result.err e
        | Except.ok resp =>
          match copyFailure w.diskFault resp with
          | some ke => Result.err ke.2
          | none =>
            match w.renameFault with
            | some e => Result.err e
            | none => Result.nil := by
  cases hc : w.createFault with
  | some e => rw [DownloadFile_create_fail w filepath url e hc]
  | none =>
    cases hg : w.httpGet url with
    | error e => rw [DownloadFile_get_fail w filepath url e hc hg]
    | ok resp =>
      cases hk : copyFailure w.diskFault resp with
      | some ke =>
        obtain ⟨_, _, _, _, _, _, _, h⟩ :=
          DownloadFile_copy_fail w filepath url resp ke.1 ke.2 hc hg hk
        rw [h]
        simp only [hk]
      | none =>
        cases hr : w.renameFault with
        | some e =>
          obtain ⟨_, _, _, _, _, _, _, h⟩ :=
            DownloadFile_rename_fail w filepath url resp e hc hg hk hr
          rw [h]
          simp only [hk]
        | none =>
          obtain ⟨_, _, _, _, _, _, _, h⟩ := DownloadFile_success w filepath url resp hc hg hk hr
          rw [h]
          simp only [hk]

theorem DownloadFile_nil (w : World) (filepath url : String)
    (h : (DownloadFile w filepath url).ret = Result.nil) :
    w.createFault = none ∧ w.renameFault = none ∧
      ∃ resp, w.httpGet url = Except.ok resp ∧ copyFailure w.diskFault resp = none := by
  rw [DownloadFile_ret] at h
  cases hc : w.createFault with
  | some e => rw [hc] at h; simp at h
  | none =>
    cases hg : w.httpGet url with
    | error e => rw [hc, hg] at h; simp at h
    | ok resp =>
      cases hk : copyFailure w.diskFault resp with
      | some ke => rw [hc, hg] at h; simp only [hk] at h; simp at h
      | none =>
        cases hr : w.renameFault with
        | some e => rw [hc, hg] at h; simp only [hk, hr] at h; simp at h
        | none => exact ⟨rfl, rfl, resp, rfl, hk⟩

theorem ioCopy_Total (name : String) (fault : Option (Nat × Error)) (final : Error)
    (chunks : List Chunk) (st : CopyState) (bar : ProgressBar) (cur : Bytes)
    (hP : st.counter.Progress = some bar) (hfs : st.fs name = some cur)
    (hlt : st.counter.Total < u64)
    (hfit : ∀ cap e, fault = some (cap, e) → cur.length + totalLength chunks ≤ cap) :
    (ioCopy name fault final chunks st).1.counter.Total
      = (st.counter.Total + totalLength chunks) % u64 := by
  induction chunks generalizing st bar cur with
  | nil => rw [ioCopy_nil]; simp [totalLength, Nat.mod_eq_of_lt hlt]
  | cons c rest ih =>
    by_cases hc : c.data = []
    · rw [ioCopy_cons_empty name fault final c rest st bar hP hc]
      have h := ih st bar cur hP hfs hlt
        (by intro cap e hf; have := hfit cap e hf; simp only [totalLength] at this; omega)
      simpa [totalLength, hc] using h
    · have hfit1 : ∀ cap e, fault = some (cap, e) → cur.length + c.data.length ≤ cap := by
        intro cap e hf; have := hfit cap e hf; simp only [totalLength] at this; omega
      rw [ioCopy_cons_fit name fault final c rest st bar cur hP hc hfs hfit1]
      obtain ⟨bar1, hb1, _⟩ := Write_Progress st.counter c.data c.clock bar hP
      have h := ih
        ⟨Function.update st.fs name (some (cur ++ c.data)),
          (st.counter.Write c.data c.clock).wc,
          st.trace ++ [(Event.Write name c.data,
            Function.update st.fs name (some (cur ++ c.data)))]⟩
        bar1 (cur ++ c.data) hb1 (by simp)
        (by simp only [Write_Total]; exact Nat.mod_lt _ (by decide))
        (by
          intro cap e hf
          have := hfit cap e hf
          simp only [totalLength] at this
          rw [List.length_append]
          omega)
      rw [h]
      simp only [Write_Total, totalLength]
      rw [Nat.add_mod, Nat.mod_mod, ← Nat.add_mod, Nat.add_assoc]

theorem DownloadFile_counter (w : World) (filepath url : String) (resp : Response)
    (hc : w.createFault = none) (hg : w.httpGet url = Except.ok resp) :
    (DownloadFile w filepath url).counter =
      some (ioCopy (filepath ++ ".tmp") w.diskFault resp.BodyErr resp.Body
        ⟨Function.update w.fs (filepath ++ ".tmp") (some []), newCounter resp,
          [(Event.Create (filepath ++ ".tmp"),
              Function.update w.fs (filepath ++ ".tmp") (some [])),
            (Event.Get url, Function.update w.fs (filepath ++ ".tmp") (some []))]⟩).1.counter := by
  simp only [DownloadFile, osCreate, hc, hg]
  split
  · rfl
  · rfl
  · split <;> rfl

theorem copyFailure_none_fits (fault : Option (Nat × Error)) (resp : Response)
    (h : copyFailure fault resp = none) :
    ∀ cap e, fault = some (cap, e) → totalLength resp.Body ≤ cap := by
  intro cap e hf
  subst hf
  simp only [copyFailure] at h
  split at h
  · exact absurd h (by simp)
  · rename_i hge
    exact Nat.le_of_not_lt hge

/-- When the copy completes, the counter of the run has counted the bytes of the
body, modulo `2 ^ 64`. -/
theorem DownloadFile_counter_Total (w : World) (filepath url : String) (resp : Response)
    (hc : w.createFault = none) (hg : w.httpGet url = Except.ok resp)
    (hk : copyFailure w.diskFault resp = none) :
    ∃ cnt, (DownloadFile w filepath url).counter = some cnt ∧
      cnt.Total = totalLength resp.Body % u64 := by
  refine ⟨_, DownloadFile_counter w filepath url resp hc hg, ?_⟩
  have h := ioCopy_Total (filepath ++ ".tmp") w.diskFault resp.BodyErr resp.Body
    ⟨Function.update w.fs (filepath ++ ".tmp") (some []), newCounter resp,
      [(Event.Create (filepath ++ ".tmp"),
          Function.update w.fs (filepath ++ ".tmp") (some [])),
        (Event.Get url, Function.update w.fs (filepath ++ ".tmp") (some []))]⟩
    _ [] rfl (by simp) (by simp [newCounter, u64])
    (by
      intro cap e hf
      have := copyFailure_none_fits w.diskFault resp hk cap e hf
      simpa using this)
  rw [h]
  simp [newCounter]

theorem DownloadFile_eraseStatus (w : World) (filepath url : String) :
    DownloadFile (eraseStatus w) filepath url = DownloadFile w filepath url := by
  unfold DownloadFile
  cases hc : w.createFault with
  | some e => simp [eraseStatus, osCreate, hc]
  | none =>
    cases hg : w.httpGet url with
    | error e => simp [eraseStatus, osCreate, hc, hg]
    | ok resp => simp [eraseStatus, osCreate, hc, hg, newCounter]

theorem barMax_run (w : World) (filepath url : String) (resp : Response)
    (hc : w.createFault = none) (hg : w.httpGet url = Except.ok resp) :
    barMax (DownloadFile w filepath url)
      = some (Atoi (resp.Header.Get "Content-Length")).1 := by
  obtain ⟨cnt, bar, evs, h1, h2, _, _, hrun⟩ := DownloadFile_resp w filepath url resp hc hg
  rw [hrun]
  cases copyResult w.diskFault 0 (totalLength resp.Body) resp.BodyErr with
  | panic => simp [barMax, h1, h2]
  | err e => simp [barMax, h1, h2]
  | nil =>
    cases w.renameFault with
    | some e => simp [barMax, h1, h2]
    | none => simp [barMax, h1, h2]

theorem events_writes {fs : FS} (name : String) (evs : List (Event × FS))
    (h : ∀ x ∈ evs, (∃ q, x.1 = Event.Write name q) ∧ ∀ p, p ≠ name → x.2 p = fs p) :
    ∀ x ∈ events evs, ∃ q, x = Event.Write name q := by
  intro x hx
  simp only [events, List.mem_map] at hx
  obtain ⟨y, hy, rfl⟩ := hx
  exact (h y hy).1

theorem changesOf_same (path : String) (prev : Option Bytes) (a b : List (Event × FS))
    (h : ∀ x ∈ a, x.2 path = prev) :
    changesOf path prev (a ++ b) = changesOf path prev b := by
  induction a with
  | nil => rfl
  | cons x rest ih =>
    have hx : x.2 path = prev := h x (List.mem_cons_self _ _)
    rw [List.cons_append, changesOf, if_pos hx]
    exact ih (fun y hy => h y (List.mem_cons_of_mem _ hy))

theorem changesOf_nil_of_same (path : String) (prev : Option Bytes) (a : List (Event × FS))
    (h : ∀ x ∈ a, x.2 path = prev) : changesOf path prev a = [] := by
  have := changesOf_same path prev a [] h
  rw [List.append_nil] at this
  rw [this]
  rfl

/-- During the copy and before it, the file at the final name is as it was. -/
theorem before_rename_same (w : World) (filepath url : String) (evs tl : List (Event × FS))
    (content : Option Bytes)
    (hw : ∀ x ∈ evs, (∃ q, x.1 = Event.Write (filepath ++ ".tmp") q) ∧
      ∀ p, p ≠ filepath ++ ".tmp" → x.2 p = w.fs p)
    (htl : ∀ x ∈ tl, x.2 = Function.update w.fs (filepath ++ ".tmp") content) :
    ∀ x ∈ [(Event.Create (filepath ++ ".tmp"),
              Function.update w.fs (filepath ++ ".tmp") (some [])),
            (Event.Get url, Function.update w.fs (filepath ++ ".tmp") (some []))] ++ evs ++ tl,
      x.2 filepath = w.fs filepath := by
  have hne : filepath ≠ filepath ++ ".tmp" := Ne.symm (tmp_ne filepath)
  intro x hx
  simp only [List.mem_append, List.mem_cons] at hx
  rcases hx with ((rfl | rfl | h) | h) | h
  · simp [Function.update_noteq hne]
  · simp [Function.update_noteq hne]
  · exact absurd h (by simp)
  · exact (hw x h).2 filepath hne
  · rw [htl x h]; simp [Function.update_noteq hne]

theorem split_last2 {α : Type} (l : List α) (x y : α) :
    l ++ [x, y] = (l ++ [x]) ++ [y] := by simp

theorem split_last4 {α : Type} (l : List α) (a b c d : α) :
    l ++ [a, b, c, d] = (l ++ [a, b, c]) ++ [d] := by simp

/-! ## Lemmas on `Atoi` -/

theorem digitVal_le (c : Char) (h : isDigit c = true) : digitVal c ≤ 9 := by
  simp only [isDigit, decide_eq_true_eq] at h
  simp only [digitVal]
  omega

theorem foldl_digits_ge (ds : List Char) (n : Nat) :
    n ≤ ds.foldl (fun acc c => acc * 10 + digitVal c) n := by
  induction ds generalizing n with
  | nil => simp
  | cons c rest ih =>
    simp only [List.foldl_cons]
    have := ih (n * 10 + digitVal c)
    omega

theorem atoiFast_digits (ds : List Char) (n : Nat) (h : ds.all isDigit = true) :
    atoiFast ds n = some (ds.foldl (fun acc c => acc * 10 + digitVal c) n) := by
  induction ds generalizing n with
  | nil => simp [atoiFast]
  | cons c rest ih =>
    simp only [List.all_cons, Bool.and_eq_true] at h
    simp [atoiFast, h.1, ih _ h.2]

theorem parseUintLoop_digits (ds : List Char) (n : Nat) (h : ds.all isDigit = true)
    (hv : ds.foldl (fun acc c => acc * 10 + digitVal c) n < u64) :
    parseUintLoop ds n = (ds.foldl (fun acc c => acc * 10 + digitVal c) n, none) := by
  induction ds generalizing n with
  | nil => simp [parseUintLoop]
  | cons c rest ih =>
    simp only [List.all_cons, Bool.and_eq_true] at h
    simp only [List.foldl_cons] at hv ⊢
    have hge := foldl_digits_ge rest (n * 10 + digitVal c)
    have hd := digitVal_le c h.1
    rw [u64_eq] at hv
    have h1 : ¬ n ≥ cutoff10 := by rw [cutoff10_eq]; omega
    have h2 : (n * 10) % u64 = n * 10 := Nat.mod_eq_of_lt (by rw [u64_eq]; omega)
    have h3 : (n * 10 + digitVal c) % u64 = n * 10 + digitVal c :=
      Nat.mod_eq_of_lt (by rw [u64_eq]; omega)
    have h4 : ¬ (n * 10 + digitVal c < n * 10 ∨ n * 10 + digitVal c > maxVal) := by
      rw [maxVal_eq]; omega
    rw [parseUintLoop]
    simp only [h.1, if_true, h1, if_false, h2, h3, h4]
    exact ih _ h.2 (by rw [u64_eq]; exact hv)

theorem ParseUint_digits (ds : List Char) (h : isDigits ds = true)
    (hv : digitsValue ds < u64) : ParseUint ds = (digitsValue ds, none) := by
  simp only [isDigits, Bool.and_eq_true, decide_eq_true_eq] at h
  simp only [ParseUint, h.1, if_false]
  exact parseUintLoop_digits ds 0 h.2 hv

theorem ParseInt_minus (rest : List Char) (h : isDigits rest = true)
    (hv : digitsValue rest ≤ 2 ^ 63) :
    ParseInt ('-' :: rest) = (-(digitsValue rest : Int), none) := by
  have hu := ParseUint_digits rest h (by rw [u64_eq]; omega)
  have h1 : ¬ digitsValue rest > 2 ^ (intSize - 1) := by
    simp only [intSize]; omega
  simp [ParseInt, hu, h1]

theorem ParseInt_plus (rest : List Char) (h : isDigits rest = true)
    (hv : digitsValue rest < 2 ^ 63) :
    ParseInt ('+' :: rest) = ((digitsValue rest : Int), none) := by
  have hu := ParseUint_digits rest h (by rw [u64_eq]; omega)
  have h1 : ¬ digitsValue rest ≥ 2 ^ (intSize - 1) := by
    simp only [intSize]; omega
  have h2 : ¬ ('+' = '-') := by decide
  simp [ParseInt, hu, h1, h2]

theorem ParseInt_plain (c : Char) (rest : List Char) (hm : c ≠ '-') (hp : c ≠ '+')
    (h : isDigits (c :: rest) = true) (hv : digitsValue (c :: rest) < 2 ^ 63) :
    ParseInt (c :: rest) = ((digitsValue (c :: rest) : Int), none) := by
  have hu := ParseUint_digits (c :: rest) h (by rw [u64_eq]; omega)
  have h1 : ¬ digitsValue (c :: rest) ≥ 2 ^ (intSize - 1) := by
    simp only [intSize]; omega
  simp [ParseInt, hu, h1, hm, hp]

/-- On a string that denotes an integer of the `int` range, `Atoi` returns that
integer and a nil error. -/
theorem Atoi_decimal (s : String) (v : Int) (h : decimalValue s = some v)
    (hlo : -(2 ^ 63) ≤ v) (hhi : v < 2 ^ 63) : Atoi s = (v, none) := by
  obtain ⟨data⟩ := s
  simp only [decimalValue, String.toList] at h
  cases data with
  | nil => simp at h
  | cons c rest =>
    simp only at h
    by_cases hm : c = '-'
    · subst hm
      simp only [if_true] at h
      split at h
      · rename_i hd
        simp only [Option.some.injEq] at h
        subst h
        have hr : rest ≠ [] := by
          simp only [isDigits, Bool.and_eq_true, decide_eq_true_eq] at hd; exact hd.1
        have hr2 : ¬ rest.length < 1 := by
          have := List.length_pos.mpr hr; omega
        have hall : rest.all isDigit = true := by
          simp only [isDigits, Bool.and_eq_true] at hd; exact hd.2
        have hfast := atoiFast_digits rest 0 hall
        have hslow := ParseInt_minus rest hd (by omega)
        simp only [Atoi, String.toList]
        split
        · simp only [true_or, if_true, hr2, if_false, hfast]
          rfl
        · exact hslow
      · simp at h
    · simp only [hm, if_false] at h
      by_cases hp : c = '+'
      · subst hp
        simp only [if_true] at h
        split at h
        · rename_i hd
          simp only [Option.some.injEq] at h
          subst h
          have hr : rest ≠ [] := by
            simp only [isDigits, Bool.and_eq_true, decide_eq_true_eq] at hd; exact hd.1
          have hr2 : ¬ rest.length < 1 := by
            have := List.length_pos.mpr hr; omega
          have hall : rest.all isDigit = true := by
            simp only [isDigits, Bool.and_eq_true] at hd; exact hd.2
          have hfast := atoiFast_digits rest 0 hall
          have hslow := ParseInt_plus rest hd (by omega)
          have hne : ¬ ('+' = '-') := by decide
          simp only [Atoi, String.toList]
          split
          · simp only [or_true, if_true, hr2, if_false, hfast, hne]
            rfl
          · exact hslow
        · simp at h
      · simp only [hp, if_false] at h
        split at h
        · rename_i hd
          simp only [Option.some.injEq] at h
          subst h
          have hall : (c :: rest).all isDigit = true := by
            simp only [isDigits, Bool.and_eq_true] at hd; exact hd.2
          have hfast := atoiFast_digits (c :: rest) 0 hall
          have hslow := ParseInt_plain c rest hm hp hd (by omega)
          simp only [Atoi, String.toList]
          split
          · simp only [hm, hp, or_self, if_false, List.length_cons, hfast]
            simp [digitsValue]
          · exact hslow
        · simp at h

theorem ParseInt_cases (l : List Char) :
    ParseInt l = (0, some NumError.malformed) ∨ (ParseInt l).2 = none ∨
      ((ParseInt l).2 = some NumError.outOfRange ∧
        ((ParseInt l).1 = 2 ^ 63 - 1 ∨ (ParseInt l).1 = -(2 ^ 63))) := by
  cases l with
  | nil => left; rfl
  | cons c rest =>
    simp only [ParseInt]
    split_ifs <;> simp [intSize]

/-- The three ways `Atoi` returns: a syntax error with the integer 0, a nil error,
or a range error with the largest or the smallest `int`. -/
theorem Atoi_cases (s : String) :
    Atoi s = (0, some NumError.malformed) ∨ (Atoi s).2 = none ∨
      ((Atoi s).2 = some NumError.outOfRange ∧
        ((Atoi s).1 = 2 ^ 63 - 1 ∨ (Atoi s).1 = -(2 ^ 63))) := by
  simp only [Atoi]
  split
  · split
    · left; rfl
    · split_ifs <;>
        first
        | (left; rfl)
        | (split <;> first | (left; rfl) | (right; left; rfl))
  · exact ParseInt_cases s.toList

theorem Atoi_malformed (s : String) (h : (Atoi s).2 = some NumError.malformed) :
    (Atoi s).1 = 0 := by
  rcases Atoi_cases s with h1 | h1 | ⟨h1, _⟩
  · rw [h1]
  · rw [h1] at h; exact absurd h (by simp)
  · rw [h1] at h; exact absurd h (by simp)

theorem Atoi_outOfRange (s : String) (h : (Atoi s).2 = some NumError.outOfRange) :
    (Atoi s).1 = 2 ^ 63 - 1 ∨ (Atoi s).1 = -(2 ^ 63) := by
  rcases Atoi_cases s with h1 | h1 | ⟨_, h2⟩
  · rw [h1] at h; exact absurd h (by simp)
  · rw [h1] at h; exact absurd h (by simp)
  · exact h2

theorem atoiFast_some (ds : List Char) (m n : Nat) (h : atoiFast ds m = some n) :
    ds.all isDigit = true ∧ n = ds.foldl (fun acc c => acc * 10 + digitVal c) m := by
  induction ds generalizing m with
  | nil => simp [atoiFast] at h; simp [h]
  | cons c rest ih =>
    rw [atoiFast] at h
    split at h
    · rename_i hd
      obtain ⟨h1, h2⟩ := ih _ h
      exact ⟨by simp [hd, h1], by simpa using h2⟩
    · exact absurd h (by simp)

theorem parseUintLoop_none (ds : List Char) (n m : Nat)
    (h : parseUintLoop ds n = (m, none)) :
    ds.all isDigit = true ∧ m = ds.foldl (fun acc c => acc * 10 + digitVal c) n := by
  induction ds generalizing n with
  | nil => simp [parseUintLoop] at h; simp [h]
  | cons c rest ih =>
    rw [parseUintLoop] at h
    split at h
    · rename_i hd
      have hd9 := digitVal_le c hd
      split at h
      · exact absurd h (by simp)
      · rename_i hcut
        rw [cutoff10_eq] at hcut
        simp only at h
        split at h
        · exact absurd h (by simp)
        · rename_i hov
          rw [u64_eq, maxVal_eq] at hov
          have hn1 : (n * 10 % u64 + digitVal c) % u64 = n * 10 + digitVal c := by
            rw [u64_eq]; omega
          rw [hn1] at h
          obtain ⟨h1, h2⟩ := ih _ h
          exact ⟨by simp [hd, h1], by simpa using h2⟩
    · exact absurd h (by simp)

theorem parseUintLoop_outOfRange (ds : List Char) (n m : Nat)
    (h : parseUintLoop ds n = (m, some NumError.outOfRange)) : m = maxVal := by
  induction ds generalizing n with
  | nil => simp [parseUintLoop] at h
  | cons c rest ih =>
    rw [parseUintLoop] at h
    split at h
    · split at h
      · simp only [Prod.mk.injEq] at h; exact h.1.symm
      · simp only at h
        split at h
        · simp only [Prod.mk.injEq] at h; exact h.1.symm
        · exact ih _ h
    · simp at h

theorem ParseUint_result (ds : List Char) :
    (ParseUint ds).2 = some NumError.malformed ∨
    ((ParseUint ds).2 = some NumError.outOfRange ∧ (ParseUint ds).1 = maxVal) ∨
    ((ParseUint ds).2 = none ∧ isDigits ds = true ∧ (ParseUint ds).1 = digitsValue ds) := by
  by_cases hnil : ds = []
  · left; simp [ParseUint, hnil]
  · simp only [ParseUint, hnil, if_false]
    rcases hr : parseUintLoop ds 0 with ⟨m, _ | e⟩
    · right; right
      obtain ⟨h1, h2⟩ := parseUintLoop_none ds 0 m hr
      exact ⟨rfl, by simp [isDigits, hnil, h1], h2⟩
    · cases e with
      | malformed => left; rfl
      | outOfRange => right; left; exact ⟨rfl, parseUintLoop_outOfRange ds 0 m hr⟩

theorem ParseInt_accepts (c : Char) (rest : List Char) (v : Int)
    (h : ParseInt (c :: rest) = (v, none)) : decimalValue ⟨c :: rest⟩ = some v := by
  have hpm : ¬ ('+' = '-') := by decide
  by_cases hm : c = '-'
  · subst hm
    rcases ParseUint_result rest with h1 | ⟨h1, h2⟩ | ⟨h1, h2, h3⟩
    · simp [ParseInt, h1] at h
    · simp [ParseInt, h1, h2, maxVal, intSize] at h
    · simp only [ParseInt, h1, h3, or_true, if_true] at h
      simp only [reduceCtorEq, if_false, not_true_eq_false, false_and, true_and] at h
      split at h
      · simp at h
      · simp only [Prod.mk.injEq, and_true] at h
        simp [decimalValue, String.toList, h2, h]
  · by_cases hp : c = '+'
    · subst hp
      rcases ParseUint_result rest with h1 | ⟨h1, h2⟩ | ⟨h1, h2, h3⟩
      · simp [ParseInt, h1] at h
      · simp [ParseInt, h1, h2, maxVal, intSize] at h
      · simp only [ParseInt, h1, h3, true_or, if_true, hpm] at h
        simp only [reduceCtorEq, if_false, not_false_eq_true, false_and, true_and] at h
        split at h
        · simp at h
        · simp only [Prod.mk.injEq, and_true] at h
          simp [decimalValue, String.toList, h2, h]
    · rcases ParseUint_result (c :: rest) with h1 | ⟨h1, h2⟩ | ⟨h1, h2, h3⟩
      · simp [ParseInt, h1, hm, hp] at h
      · simp [ParseInt, h1, h2, maxVal, intSize, hm, hp] at h
      · simp only [ParseInt, h1, h3, hm, hp, or_self, if_false] at h
        simp only [reduceCtorEq, if_false, not_false_eq_true, false_and, true_and] at h
        split at h
        · simp at h
        · simp only [Prod.mk.injEq, and_true] at h
          simp [decimalValue, String.toList, h2, h, hm, hp]

/-- When `Atoi` returns a nil error, the string denotes the integer returned. -/
theorem Atoi_accepts (s : String) (v : Int) (h : Atoi s = (v, none)) :
    decimalValue s = some v := by
  obtain ⟨data⟩ := s
  have hpm : ¬ ('+' = '-') := by decide
  simp only [Atoi, String.toList] at h
  split at h
  · cases data with
    | nil => simp at h
    | cons c rest =>
      by_cases hm : c = '-'
      · subst hm
        simp only [true_or, if_true] at h
        split at h
        · simp at h
        · rename_i hlen
          have hne : rest ≠ [] := by
            intro h0; rw [h0] at hlen; simp at hlen
          split at h
          · simp at h
          · rename_i n hn
            simp only [Prod.mk.injEq, and_true] at h
            obtain ⟨h1, h2⟩ := atoiFast_some _ 0 n hn
            simp [decimalValue, String.toList, isDigits, hne, h1, digitsValue, ← h2, h]
      · by_cases hp : c = '+'
        · subst hp
          simp only [or_true, if_true, hpm, if_false] at h
          split at h
          · simp at h
          · rename_i hlen
            have hne : rest ≠ [] := by
              intro h0; rw [h0] at hlen; simp at hlen
            split at h
            · simp at h
            · rename_i n hn
              simp only [Prod.mk.injEq, and_true] at h
              obtain ⟨h1, h2⟩ := atoiFast_some _ 0 n hn
              simp [decimalValue, String.toList, isDigits, hne, h1, digitsValue, ← h2, h]
        · simp only [hm, hp, or_self, if_false] at h
          split at h
          · simp at h
          · split at h
            · simp at h
            · rename_i n hn
              simp only [Prod.mk.injEq, and_true] at h
              obtain ⟨h1, h2⟩ := atoiFast_some _ 0 n hn
              simp [decimalValue, String.toList, isDigits, h1, digitsValue, ← h2, h, hm, hp]
  · cases data with
    | nil => simp [ParseInt] at h
    | cons c rest => exact ParseInt_accepts c rest v h

theorem foldl_digits_lt (ds : List Char) (n : Nat) (h : ds.all isDigit = true) :
    ds.foldl (fun acc c => acc * 10 + digitVal c) n < (n + 1) * 10 ^ ds.length := by
  induction ds generalizing n with
  | nil => simp
  | cons c rest ih =>
    simp only [List.all_cons, Bool.and_eq_true] at h
    simp only [List.foldl_cons, List.length_cons]
    have hd := digitVal_le c h.1
    calc rest.foldl (fun acc c => acc * 10 + digitVal c) (n * 10 + digitVal c)
        < (n * 10 + digitVal c + 1) * 10 ^ rest.length := ih _ h.2
      _ ≤ ((n + 1) * 10) * 10 ^ rest.length := Nat.mul_le_mul_right _ (by omega)
      _ = (n + 1) * 10 ^ (rest.length + 1) := by rw [pow_succ]; ring

/-- A string of at most 18 digits denotes a number below `10 ^ 18`. -/
theorem digitsValue_lt (ds : List Char) (h : ds.all isDigit = true) (hl : ds.length ≤ 18) :
    digitsValue ds < 1000000000000000000 := by
  have h1 := foldl_digits_lt ds 0 h
  have h2 : 10 ^ ds.length ≤ 10 ^ 18 := Nat.pow_le_pow_right (by decide) hl
  simp only [digitsValue]
  have h3 : (10 : Nat) ^ 18 = 1000000000000000000 := by norm_num
  omega

theorem parseUintLoop_overflow (ds : List Char) (n : Nat) (h : ds.all isDigit = true)
    (hn : n < u64) (hv : u64 ≤ ds.foldl (fun acc c => acc * 10 + digitVal c) n) :
    parseUintLoop ds n = (maxVal, some NumError.outOfRange) := by
  induction ds generalizing n with
  | nil => simp only [List.foldl_nil] at hv; omega
  | cons c rest ih =>
    simp only [List.all_cons, Bool.and_eq_true] at h
    simp only [List.foldl_cons] at hv
    have hd := digitVal_le c h.1
    rw [parseUintLoop]
    simp only [h.1, if_true]
    by_cases hcut : n ≥ cutoff10
    · simp only [hcut, if_true]
    · simp only [hcut, if_false]
      have hcut1 := hcut
      rw [cutoff10_eq] at hcut1
      have h2 : (n * 10) % u64 = n * 10 := Nat.mod_eq_of_lt (by rw [u64_eq]; omega)
      rw [h2]
      by_cases hov : n * 10 + digitVal c < u64
      · have h3 : (n * 10 + digitVal c) % u64 = n * 10 + digitVal c := Nat.mod_eq_of_lt hov
        have h4 : ¬ (n * 10 + digitVal c < n * 10 ∨ n * 10 + digitVal c > maxVal) := by
          rw [maxVal_eq]; rw [u64_eq] at hov; omega
        simp only [h3, h4, if_false]
        exact ih _ h.2 hov hv
      · have h4 : (n * 10 + digitVal c) % u64 < n * 10 ∨
            (n * 10 + digitVal c) % u64 > maxVal := by
          left; rw [u64_eq] at hov ⊢; omega
        simp only [h4, if_true]

theorem ParseUint_overflow (ds : List Char) (h : isDigits ds = true)
    (hv : u64 ≤ digitsValue ds) : ParseUint ds = (maxVal, some NumError.outOfRange) := by
  simp only [isDigits, Bool.and_eq_true, decide_eq_true_eq] at h
  simp only [ParseUint, h.1, if_false]
  exact parseUintLoop_overflow ds 0 h.2 (by decide) hv

theorem ParseInt_minus_low (rest : List Char) (h : isDigits rest = true)
    (hv : 2 ^ 63 < digitsValue rest) :
    ParseInt ('-' :: rest) = (-(2 ^ 63), some NumError.outOfRange) := by
  by_cases hu : digitsValue rest < u64
  · have h1 := ParseUint_digits rest h hu
    simp [ParseInt, h1, intSize]
    omega
  · have h1 := ParseUint_overflow rest h (Nat.le_of_not_lt hu)
    simp [ParseInt, h1, maxVal, intSize]

theorem ParseInt_plus_high (rest : List Char) (h : isDigits rest = true)
    (hv : 2 ^ 63 ≤ digitsValue rest) :
    ParseInt ('+' :: rest) = (2 ^ 63 - 1, some NumError.outOfRange) := by
  have hpm : ¬ ('+' = '-') := by decide
  by_cases hu : digitsValue rest < u64
  · have h1 := ParseUint_digits rest h hu
    simp [ParseInt, h1, intSize, hpm]
    omega
  · have h1 := ParseUint_overflow rest h (Nat.le_of_not_lt hu)
    simp [ParseInt, h1, maxVal, intSize, hpm]

theorem ParseInt_plain_high (c : Char) (rest : List Char) (hm : c ≠ '-') (hp : c ≠ '+')
    (h : isDigits (c :: rest) = true) (hv : 2 ^ 63 ≤ digitsValue (c :: rest)) :
    ParseInt (c :: rest) = (2 ^ 63 - 1, some NumError.outOfRange) := by
  by_cases hu : digitsValue (c :: rest) < u64
  · have h1 := ParseUint_digits (c :: rest) h hu
    simp [ParseInt, h1, intSize, hm, hp]
    omega
  · have h1 := ParseUint_overflow (c :: rest) h (Nat.le_of_not_lt hu)
    simp [ParseInt, h1, maxVal, intSize, hm, hp]

/-- On a string that denotes an integer above the `int` range, `Atoi` returns the
largest `int` and a range error. -/
theorem Atoi_decimal_high (s : String) (v : Int) (h : decimalValue s = some v)
    (hhi : 2 ^ 63 ≤ v) : Atoi s = (2 ^ 63 - 1, some NumError.outOfRange) := by
  obtain ⟨data⟩ := s
  simp only [decimalValue, String.toList] at h
  cases data with
  | nil => simp at h
  | cons c rest =>
    simp only at h
    by_cases hm : c = '-'
    · subst hm
      simp only [if_true] at h
      split at h
      · simp only [Option.some.injEq] at h
        omega
      · simp at h
    · simp only [hm, if_false] at h
      by_cases hp : c = '+'
      · subst hp
        simp only [if_true] at h
        split at h
        · rename_i hd
          simp only [Option.some.injEq] at h
          subst h
          have hall : rest.all isDigit = true := by
            simp only [isDigits, Bool.and_eq_true] at hd; exact hd.2
          simp only [Atoi, String.toList]
          split
          · rename_i hlen
            simp only [String.length, List.length_cons] at hlen
            have := digitsValue_lt rest hall (by omega)
            omega
          · exact ParseInt_plus_high rest hd (by omega)
        · simp at h
      · simp only [hp, if_false] at h
        split at h
        · rename_i hd
          simp only [Option.some.injEq] at h
          subst h
          have hall : (c :: rest).all isDigit = true := by
            simp only [isDigits, Bool.and_eq_true] at hd; exact hd.2
          simp only [Atoi, String.toList]
          split
          · rename_i hlen
            simp only [String.length, List.length_cons] at hlen
            have := digitsValue_lt (c :: rest) hall (by simp only [List.length_cons]; omega)
            omega
          · exact ParseInt_plain_high c rest hm hp hd (by omega)
        · simp at h

/-- On a string that denotes an integer below the `int` range, `Atoi` returns the
smallest `int` and a range error. -/
theorem Atoi_decimal_low (s : String) (v : Int) (h : decimalValue s = some v)
    (hlo : v < -(2 ^ 63)) : Atoi s = (-(2 ^ 63), some NumError.outOfRange) := by
  obtain ⟨data⟩ := s
  simp only [decimalValue, String.toList] at h
  cases data with
  | nil => simp at h
  | cons c rest =>
    simp only at h
    by_cases hm : c = '-'
    · subst hm
      simp only [if_true] at h
      split at h
      · rename_i hd
        simp only [Option.some.injEq] at h
        subst h
        have hall : rest.all isDigit = true := by
          simp only [isDigits, Bool.and_eq_true] at hd; exact hd.2
        simp only [Atoi, String.toList]
        split
        · rename_i hlen
          simp only [String.length, List.length_cons] at hlen
          have := digitsValue_lt rest hall (by omega)
          omega
        · exact ParseInt_minus_low rest hd (by omega)
      · simp at h
    · simp only [hm, if_false] at h
      by_cases hp : c = '+'
      · subst hp
        simp only [if_true] at h
        split at h
        · simp only [Option.some.injEq] at h
          omega
        · simp at h
      · simp only [hp, if_false] at h
        split at h
        · simp only [Option.some.injEq] at h
          omega
        · simp at h

theorem ParseInt_accepts_range (l : List Char) (v : Int) (h : ParseInt l = (v, none)) :
    -(2 ^ 63) ≤ v ∧ v < 2 ^ 63 := by
  have hc : (2 : Nat) ^ (intSize - 1) = 9223372036854775808 := by decide
  cases l with
  | nil => simp [ParseInt] at h
  | cons c rest =>
    simp only [ParseInt, hc] at h
    split at h <;>
    · split at h
      · simp at h
      · split at h
        · simp at h
        · rename_i hpos
          split at h
          · simp at h
          · rename_i hneg
            simp only [Prod.mk.injEq, and_true] at h
            by_cases hm : c = '-'
            · simp only [hm, if_true] at h
              simp only [hm, true_and, not_lt] at hneg
              omega
            · simp only [hm, if_false] at h
              simp only [hm, not_false_eq_true, true_and, not_le] at hpos
              omega

theorem ParseInt_outOfRange_sign (l : List Char)
    (h : (ParseInt l).2 = some NumError.outOfRange) :
    (ParseInt l).1 = if l.head? = some '-' then -(2 ^ 63) else 2 ^ 63 - 1 := by
  cases l with
  | nil => simp [ParseInt] at h
  | cons c rest =>
    simp only [ParseInt, intSize] at h ⊢
    split_ifs at h ⊢ <;> simp_all

/-- When `Atoi` returns a nil error, the integer returned is in the `int` range. -/
theorem Atoi_accepts_range (s : String) (v : Int) (h : Atoi s = (v, none)) :
    -(2 ^ 63) ≤ v ∧ v < 2 ^ 63 := by
  obtain ⟨data⟩ := s
  have hpm : ¬ ('+' = '-') := by decide
  simp only [Atoi, String.toList] at h
  split at h
  · rename_i hlen
    cases data with
    | nil => simp at h
    | cons c rest =>
      simp only [String.length, List.length_cons] at hlen
      by_cases hm : c = '-'
      · subst hm
        simp only [true_or, if_true] at h
        split at h
        · simp at h
        · split at h
          · simp at h
          · rename_i n hn
            simp only [Prod.mk.injEq, and_true] at h
            obtain ⟨h1, h2⟩ := atoiFast_some _ 0 n hn
            have h3 := digitsValue_lt rest h1 (by omega)
            simp only [digitsValue] at h3
            omega
      · by_cases hp : c = '+'
        · subst hp
          simp only [or_true, if_true, hpm, if_false] at h
          split at h
          · simp at h
          · split at h
            · simp at h
            · rename_i n hn
              simp only [Prod.mk.injEq, and_true] at h
              obtain ⟨h1, h2⟩ := atoiFast_some _ 0 n hn
              have h3 := digitsValue_lt rest h1 (by omega)
              simp only [digitsValue] at h3
              omega
        · simp only [hm, hp, or_self, if_false] at h
          split at h
          · simp at h
          · split at h
            · simp at h
            · rename_i n hn
              simp only [Prod.mk.injEq, and_true] at h
              obtain ⟨h1, h2⟩ := atoiFast_some _ 0 n hn
              have h3 := digitsValue_lt (c :: rest) h1
                (by simp only [List.length_cons]; omega)
              simp only [digitsValue] at h3
              omega
  · exact ParseInt_accepts_range data v h

/-- When `Atoi` returns a range error, the integer returned is the smallest `int`
if the string begins with `-` and the largest `int` otherwise. -/
theorem Atoi_outOfRange_sign (s : String) (h : (Atoi s).2 = some NumError.outOfRange) :
    (Atoi s).1 = intBound s := by
  simp only [Atoi, intBound] at h ⊢
  split
  · rename_i hlen
    simp only [hlen, and_self, if_true] at h
    exfalso
    revert h
    split
    · simp
    · split_ifs <;> (try split) <;> simp
  · rename_i hlen
    simp only [hlen, if_false] at h
    exact ParseInt_outOfRange_sign s.toList h

theorem takeWhile_all (ds : List Char) : (ds.takeWhile isDigit).all isDigit = true := by
  induction ds with
  | nil => rfl
  | cons c rest ih =>
    by_cases hd : isDigit c = true
    · simp [List.takeWhile_cons, hd, ih]
    · simp [List.takeWhile_cons, hd]

theorem takeWhile_length_le (ds : List Char) : (ds.takeWhile isDigit).length ≤ ds.length := by
  induction ds with
  | nil => simp
  | cons c rest ih =>
    by_cases hd : isDigit c = true
    · simp [List.takeWhile_cons, hd, ih]
    · simp [List.takeWhile_cons, hd]

theorem atoiFast_nondigit (ds : List Char) (n : Nat) (h : ds.takeWhile isDigit ≠ ds) :
    atoiFast ds n = none := by
  induction ds generalizing n with
  | nil => simp at h
  | cons c rest ih =>
    by_cases hd : isDigit c = true
    · simp only [List.takeWhile_cons, hd, if_true, ne_eq, List.cons.injEq, true_and] at h
      simp [atoiFast, hd, ih _ h]
    · simp [atoiFast, hd]

theorem parseUintLoop_nondigit (ds : List Char) (n : Nat)
    (h : ds.takeWhile isDigit ≠ ds)
    (hv : (ds.takeWhile isDigit).foldl (fun acc c => acc * 10 + digitVal c) n < u64) :
    parseUintLoop ds n = (0, some NumError.malformed) := by
  induction ds generalizing n with
  | nil => simp at h
  | cons c rest ih =>
    by_cases hd : isDigit c = true
    · simp only [List.takeWhile_cons, hd, if_true, ne_eq, List.cons.injEq, true_and] at h
      simp only [List.takeWhile_cons, hd, if_true, List.foldl_cons] at hv
      have hge := foldl_digits_ge (rest.takeWhile isDigit) (n * 10 + digitVal c)
      have hd9 := digitVal_le c hd
      have hv1 := hv
      rw [u64_eq] at hv1
      have h1 : ¬ n ≥ cutoff10 := by rw [cutoff10_eq]; omega
      have h2 : (n * 10) % u64 = n * 10 := Nat.mod_eq_of_lt (by rw [u64_eq]; omega)
      have h3 : (n * 10 + digitVal c) % u64 = n * 10 + digitVal c :=
        Nat.mod_eq_of_lt (by rw [u64_eq]; omega)
      have h4 : ¬ (n * 10 + digitVal c < n * 10 ∨ n * 10 + digitVal c > maxVal) := by
        rw [maxVal_eq]; omega
      rw [parseUintLoop]
      simp only [hd, if_true, h1, if_false, h2, h3, h4]
      exact ih _ h hv
    · rw [parseUintLoop]
      simp [hd]

theorem parseUintLoop_leading_overflow (ds : List Char) (n : Nat) (hn : n < u64)
    (hv : u64 ≤ (ds.takeWhile isDigit).foldl (fun acc c => acc * 10 + digitVal c) n) :
    parseUintLoop ds n = (maxVal, some NumError.outOfRange) := by
  induction ds generalizing n with
  | nil => simp only [List.takeWhile_nil, List.foldl_nil] at hv; omega
  | cons c rest ih =>
    by_cases hd : isDigit c = true
    · simp only [List.takeWhile_cons, hd, if_true, List.foldl_cons] at hv
      have hd9 := digitVal_le c hd
      rw [parseUintLoop]
      simp only [hd, if_true]
      by_cases hcut : n ≥ cutoff10
      · simp only [hcut, if_true]
      · simp only [hcut, if_false]
        have hcut1 := hcut
        rw [cutoff10_eq] at hcut1
        have h2 : (n * 10) % u64 = n * 10 := Nat.mod_eq_of_lt (by rw [u64_eq]; omega)
        rw [h2]
        by_cases hov : n * 10 + digitVal c < u64
        · have h3 : (n * 10 + digitVal c) % u64 = n * 10 + digitVal c :=
            Nat.mod_eq_of_lt hov
          have h4 : ¬ (n * 10 + digitVal c < n * 10 ∨ n * 10 + digitVal c > maxVal) := by
            rw [maxVal_eq]; rw [u64_eq] at hov; omega
          simp only [h3, h4, if_false]
          exact ih _ hov hv
        · have h4 : (n * 10 + digitVal c) % u64 < n * 10 ∨
              (n * 10 + digitVal c) % u64 > maxVal := by
            left; rw [u64_eq] at hov ⊢; omega
          simp only [h4, if_true]
    · simp only [List.takeWhile_cons, hd, Bool.false_eq_true, if_false, List.foldl_nil] at hv
      omega

theorem Atoi_no_digits (s : String) (h : unsignedPart s = []) :
    Atoi s = (0, some NumError.malformed) := by
  obtain ⟨data⟩ := s
  simp only [unsignedPart, String.toList] at h
  cases data with
  | nil => decide
  | cons c rest =>
    simp only at h
    split at h
    · rename_i hs
      subst h
      have hs2 : c = '-' ∨ c = '+' := hs.symm
      simp [Atoi, String.length, String.toList, hs2]
    · simp at h

theorem Atoi_nondigit (s : String) (h : leadingDigits s ≠ unsignedPart s)
    (hv : digitsValue (leadingDigits s) < 2 ^ 64) :
    Atoi s = (0, some NumError.malformed) := by
  obtain ⟨data⟩ := s
  have hv1 : digitsValue (leadingDigits ⟨data⟩) < u64 := by rw [u64_eq]; omega
  simp only [leadingDigits, unsignedPart, String.toList] at h hv1
  cases data with
  | nil => simp at h
  | cons c rest =>
    simp only at h hv1
    by_cases hs : c = '+' ∨ c = '-'
    · have hs2 : c = '-' ∨ c = '+' := hs.symm
      simp only [hs, if_true] at h hv1
      have hne : rest ≠ [] := by intro h0; rw [h0] at h; simp at h
      have hlp := parseUintLoop_nondigit rest 0 h hv1
      have hfa := atoiFast_nondigit rest 0 h
      simp only [Atoi, String.toList]
      split
      · simp [hs2, hfa]
      · simp [ParseInt, hs, ParseUint, hne, hlp]
    · have hs2 : ¬ (c = '-' ∨ c = '+') := fun h0 => hs h0.symm
      simp only [hs, if_false] at h hv1
      have hlp := parseUintLoop_nondigit (c :: rest) 0 h hv1
      have hfa := atoiFast_nondigit (c :: rest) 0 h
      simp only [Atoi, String.toList]
      split
      · simp [hs2, hfa]
      · simp [ParseInt, hs, ParseUint, hlp]

theorem Atoi_leading_overflow (s : String) (hv : 2 ^ 64 ≤ digitsValue (leadingDigits s)) :
    Atoi s = (intBound s, some NumError.outOfRange) := by
  obtain ⟨data⟩ := s
  have hpm : ¬ ('+' = '-') := by decide
  have hv1 : u64 ≤ digitsValue (leadingDigits ⟨data⟩) := by rw [u64_eq]; omega
  simp only [leadingDigits, unsignedPart, String.toList] at hv1
  cases data with
  | nil => simp [digitsValue, u64] at hv1
  | cons c rest =>
    simp only at hv1
    by_cases hs : c = '+' ∨ c = '-'
    · simp only [hs, if_true] at hv1
      have hne : rest ≠ [] := by
        intro h0; rw [h0] at hv1; simp [digitsValue, u64] at hv1
      have hlp := parseUintLoop_leading_overflow rest 0 (by decide) hv1
      simp only [Atoi, String.toList]
      split
      · rename_i hlen
        simp only [String.length, List.length_cons] at hlen
        have h1 := digitsValue_lt _ (takeWhile_all rest)
          (by have := takeWhile_length_le rest; omega)
        rw [u64_eq] at hv1
        omega
      · rcases hs with rfl | rfl
        · simp [ParseInt, ParseUint, hne, hlp, maxVal, intSize, intBound, String.toList, hpm]
        · simp [ParseInt, ParseUint, hne, hlp, maxVal, intSize, intBound, String.toList]
    · simp only [hs, if_false] at hv1
      have hlp := parseUintLoop_leading_overflow (c :: rest) 0 (by decide) hv1
      have hm : ¬ c = '-' := fun h0 => hs (Or.inr h0)
      have hp : ¬ c = '+' := fun h0 => hs (Or.inl h0)
      simp only [Atoi, String.toList]
      split
      · rename_i hlen
        simp only [String.length, List.length_cons] at hlen
        have h1 := digitsValue_lt _ (takeWhile_all (c :: rest))
          (by have := takeWhile_length_le (c :: rest); simp only [List.length_cons] at this; omega)
        rw [u64_eq] at hv1
        omega
      · simp [ParseInt, ParseUint, hlp, maxVal, intSize, intBound, String.toList, hm, hp]

theorem Atoi_empty : Atoi "" = (0, some NumError.malformed) := by decide

/-! ## The claims -/

/-- C1: whenever `DownloadFile(filepath, url)` returns nil, the file at `filepath`
holds exactly the bytes read from the response body, whatever was stored there
before, so that its length is the announced `Content-Length` when the body
delivers that many bytes, and there is no file at `filepath + ".tmp"`. -/
theorem C1_success_leaves_body_at_filepath (w : World) (filepath url : String)
    (h : (DownloadFile w filepath url).ret = Result.nil) :
    ∃ resp, w.httpGet url = Except.ok resp ∧
      (DownloadFile w filepath url).fs filepath = some (bodyBytes resp.Body) ∧
      (DownloadFile w filepath url).fs (filepath ++ ".tmp") = none ∧
      ∀ n : Nat, (Atoi (resp.Header.Get "Content-Length")).1 = (n : Int) →
        totalLength resp.Body = n →
        ((DownloadFile w filepath url).fs filepath).map List.length = some n := by
  obtain ⟨hc, hr, resp, hg, hk⟩ := DownloadFile_nil w filepath url h
  obtain ⟨cnt, bar, evs, _, _, _, _, hrun⟩ := DownloadFile_success w filepath url resp hc hg hk hr
  refine ⟨resp, hg, ?_, ?_, ?_⟩
  · rw [hrun]; simp
  · rw [hrun]; simp [Function.update_noteq (tmp_ne filepath)]
  · intro n _ hn
    rw [hrun]
    simp [← totalLength_eq, hn]

theorem C1_witness :
    (DownloadFile calm "mountain.jpg" "u").ret = Result.nil ∧
    ∃ resp, calm.httpGet "u" = Except.ok resp ∧
      (DownloadFile calm "mountain.jpg" "u").fs "mountain.jpg" = some (bodyBytes resp.Body) ∧
      (DownloadFile calm "mountain.jpg" "u").fs ("mountain.jpg" ++ ".tmp") = none ∧
      ∀ n : Nat, (Atoi (resp.Header.Get "Content-Length")).1 = (n : Int) →
        totalLength resp.Body = n →
        ((DownloadFile calm "mountain.jpg" "u").fs "mountain.jpg").map List.length = some n :=
  ⟨by decide, C1_success_leaves_body_at_filepath calm "mountain.jpg" "u" (by decide)⟩

/-- C2: in every run of `DownloadFile`, failing or not, the only operation that
changes the file at the final name `filepath` is the rename; after each operation
of the run the file at `filepath` is either as it was before the call or holds the
completely downloaded body; and when `DownloadFile` returns an error the file at
`filepath` is as it was before the call, absent if it was absent. -/
theorem C2_final_name_changes_only_at_rename (w : World) (filepath url : String) :
    (∀ ev ∈ changesOf filepath (w.fs filepath) (DownloadFile w filepath url).trace,
      ev = Event.Rename (filepath ++ ".tmp") filepath) ∧
    (∀ x ∈ (DownloadFile w filepath url).trace,
      x.2 filepath = w.fs filepath ∨
      ∃ resp, w.httpGet url = Except.ok resp ∧ copyFailure w.diskFault resp = none ∧
        x.2 filepath = some (bodyBytes resp.Body)) ∧
    (∃ pre ev, (DownloadFile w filepath url).trace
      = pre ++ [(ev, (DownloadFile w filepath url).fs)]) ∧
    (∀ e, (DownloadFile w filepath url).ret = Result.err e →
      (DownloadFile w filepath url).fs filepath = w.fs filepath) := by
  have hne : filepath ≠ filepath ++ ".tmp" := Ne.symm (tmp_ne filepath)
  cases hc : w.createFault with
  | some e =>
    rw [DownloadFile_create_fail w filepath url e hc]
    refine ⟨by simp [changesOf], by simp, ⟨[], _, rfl⟩, by simp⟩
  | none =>
    cases hg : w.httpGet url with
    | error e =>
      rw [DownloadFile_get_fail w filepath url e hc hg]
      refine ⟨by simp [changesOf, Function.update_noteq hne],
        by simp [Function.update_noteq hne],
        ⟨[(Event.Create (filepath ++ ".tmp"),
            Function.update w.fs (filepath ++ ".tmp") (some [])),
          (Event.Get url, Function.update w.fs (filepath ++ ".tmp") (some []))],
          Event.CloseFile (filepath ++ ".tmp"), rfl⟩,
        by simp [Function.update_noteq hne]⟩
    | ok resp =>
      cases hk : copyFailure w.diskFault resp with
      | some ke =>
        obtain ⟨cnt, bar, evs, _, _, _, hw, hrun⟩ :=
          DownloadFile_copy_fail w filepath url resp ke.1 ke.2 hc hg hk
        have hsame := before_rename_same w filepath url evs
          [(Event.CloseFile (filepath ++ ".tmp"),
              Function.update w.fs (filepath ++ ".tmp")
                (some ((bodyBytes resp.Body).take ke.1))),
            (Event.CloseBody,
              Function.update w.fs (filepath ++ ".tmp")
                (some ((bodyBytes resp.Body).take ke.1)))]
          (some ((bodyBytes resp.Body).take ke.1)) hw (by simp)
        rw [hrun]
        refine ⟨?_, fun x hx => Or.inl (hsame x hx), ⟨_, _, split_last2 _ _ _⟩, ?_⟩
        · rw [changesOf_nil_of_same filepath _ _ hsame]; simp
        · simp [Function.update_noteq hne]
      | none =>
        cases hr : w.renameFault with
        | some e =>
          obtain ⟨cnt, bar, evs, _, _, _, hw, hrun⟩ :=
            DownloadFile_rename_fail w filepath url resp e hc hg hk hr
          have hsame := before_rename_same w filepath url evs
            [(Event.Newline,
                Function.update w.fs (filepath ++ ".tmp") (some (bodyBytes resp.Body))),
              (Event.CloseFile (filepath ++ ".tmp"),
                Function.update w.fs (filepath ++ ".tmp") (some (bodyBytes resp.Body))),
              (Event.Rename (filepath ++ ".tmp") filepath,
                Function.update w.fs (filepath ++ ".tmp") (some (bodyBytes resp.Body))),
              (Event.CloseBody,
                Function.update w.fs (filepath ++ ".tmp") (some (bodyBytes resp.Body)))]
            (some (bodyBytes resp.Body)) hw (by simp)
          rw [hrun]
          refine ⟨?_, fun x hx => Or.inl (hsame x hx), ⟨_, _, split_last4 _ _ _ _ _⟩, ?_⟩
          · rw [changesOf_nil_of_same filepath _ _ hsame]; simp
          · simp [Function.update_noteq hne]
        | none =>
          obtain ⟨cnt, bar, evs, _, _, _, hw, hrun⟩ :=
            DownloadFile_success w filepath url resp hc hg hk hr
          have hsame := before_rename_same w filepath url evs
            [(Event.Newline,
                Function.update w.fs (filepath ++ ".tmp") (some (bodyBytes resp.Body))),
              (Event.CloseFile (filepath ++ ".tmp"),
                Function.update w.fs (filepath ++ ".tmp") (some (bodyBytes resp.Body)))]
            (some (bodyBytes resp.Body)) hw (by simp)
          have hsplit : ∀ (l : List (Event × FS)) (a b c d : Event × FS),
              l ++ [a, b, c, d] = (l ++ [a, b]) ++ [c, d] := by
            intros; simp
          rw [hrun]
          simp only []
          rw [hsplit]
          refine ⟨?_, ?_, ⟨_, _, split_last2 _ _ _⟩, by simp⟩
          · rw [changesOf_same filepath _ _ _ hsame]
            intro ev hev
            simp only [changesOf, Function.update_same] at hev
            by_cases h1 : some (bodyBytes resp.Body) = w.fs filepath
            · simp [h1] at hev
            · simp [h1] at hev
              exact hev
          · intro x hx
            rcases List.mem_append.mp hx with h | h
            · exact Or.inl (hsame x h)
            · refine Or.inr ⟨resp, rfl, hk, ?_⟩
              simp only [List.mem_cons, List.mem_singleton] at h
              rcases h with rfl | rfl | h
              · simp
              · simp
              · exact absurd h (by simp)

theorem C2_witness :
    (∀ ev ∈ changesOf "mountain.jpg" (diskFull.fs "mountain.jpg")
        (DownloadFile diskFull "mountain.jpg" "u").trace,
      ev = Event.Rename ("mountain.jpg" ++ ".tmp") "mountain.jpg") ∧
    events (DownloadFile diskFull "mountain.jpg" "u").trace =
      [Event.Create "mountain.jpg.tmp", Event.Get "u", Event.Write "mountain.jpg.tmp" [1],
        Event.CloseFile "mountain.jpg.tmp", Event.CloseBody] ∧
    (DownloadFile diskFull "mountain.jpg" "u").fs "mountain.jpg" = some [9] ∧
    changesOf "mountain.jpg" (calm.fs "mountain.jpg")
        (DownloadFile calm "mountain.jpg" "u").trace
      = [Event.Rename "mountain.jpg.tmp" "mountain.jpg"] :=
  ⟨(C2_final_name_changes_only_at_rename diskFull "mountain.jpg" "u").1,
    by decide, by decide, by decide⟩

/-- C3: `DownloadFile` performs create temp file, HTTP GET, streaming copy and
rename in this order, stops at the first of them that fails without performing a
later one (no GET after a failed create, no rename after a failed GET or copy),
returns the error of that step, and returns nil exactly when all four succeed.
The outcome of the copy is named by `copyFailure`, which the last part shows to
be what the call of `io.Copy` returns. -/
theorem C3_first_failing_step_ends_the_run (w : World) (filepath url : String) :
    (∀ e, w.createFault = some e →
      (DownloadFile w filepath url).ret = Result.err e ∧
      events (DownloadFile w filepath url).trace = [Event.Create (filepath ++ ".tmp")]) ∧
    (w.createFault = none → ∀ e, w.httpGet url = Except.error e →
      (DownloadFile w filepath url).ret = Result.err e ∧
      events (DownloadFile w filepath url).trace =
        [Event.Create (filepath ++ ".tmp"), Event.Get url,
          Event.CloseFile (filepath ++ ".tmp")]) ∧
    (w.createFault = none → ∀ resp, w.httpGet url = Except.ok resp →
      ∀ k e, copyFailure w.diskFault resp = some (k, e) →
      (DownloadFile w filepath url).ret = Result.err e ∧
      ∃ ws, (∀ x ∈ ws, ∃ q, x = Event.Write (filepath ++ ".tmp") q) ∧
        events (DownloadFile w filepath url).trace =
          [Event.Create (filepath ++ ".tmp"), Event.Get url] ++ ws ++
            [Event.CloseFile (filepath ++ ".tmp"), Event.CloseBody]) ∧
    (w.createFault = none → ∀ resp, w.httpGet url = Except.ok resp →
      copyFailure w.diskFault resp = none → ∀ e, w.renameFault = some e →
      (DownloadFile w filepath url).ret = Result.err e ∧
      ∃ ws, (∀ x ∈ ws, ∃ q, x = Event.Write (filepath ++ ".tmp") q) ∧
        events (DownloadFile w filepath url).trace =
          [Event.Create (filepath ++ ".tmp"), Event.Get url] ++ ws ++
            [Event.Newline, Event.CloseFile (filepath ++ ".tmp"),
              Event.Rename (filepath ++ ".tmp") filepath, Event.CloseBody]) ∧
    ((DownloadFile w filepath url).ret = Result.nil ↔
      w.createFault = none ∧
      (∃ resp, w.httpGet url = Except.ok resp ∧ copyFailure w.diskFault resp = none) ∧
      w.renameFault = none) ∧
    ((DownloadFile w filepath url).ret = Result.nil →
      ∃ ws, (∀ x ∈ ws, ∃ q, x = Event.Write (filepath ++ ".tmp") q) ∧
        events (DownloadFile w filepath url).trace =
          [Event.Create (filepath ++ ".tmp"), Event.Get url] ++ ws ++
            [Event.Newline, Event.CloseFile (filepath ++ ".tmp"),
              Event.Rename (filepath ++ ".tmp") filepath, Event.CloseBody]) ∧
    (∀ resp,
      (∀ k e, copyFailure w.diskFault resp = some (k, e) →
        (copyStep w filepath url resp).2 = Result.err e) ∧
      (copyFailure w.diskFault resp = none →
        (copyStep w filepath url resp).2 = Result.nil)) := by
  refine ⟨?_, ?_, ?_, ?_, ⟨?_, ?_⟩, ?_, ?_⟩
  · intro e hc
    rw [DownloadFile_create_fail w filepath url e hc]
    exact ⟨rfl, rfl⟩
  · intro hc e hg
    rw [DownloadFile_get_fail w filepath url e hc hg]
    exact ⟨rfl, rfl⟩
  · intro hc resp hg k e hk
    obtain ⟨cnt, bar, evs, _, _, _, hw, hrun⟩ :=
      DownloadFile_copy_fail w filepath url resp k e hc hg hk
    rw [hrun]
    exact ⟨rfl, events evs, events_writes _ evs hw, by simp [events]⟩
  · intro hc resp hg hk e hr
    obtain ⟨cnt, bar, evs, _, _, _, hw, hrun⟩ :=
      DownloadFile_rename_fail w filepath url resp e hc hg hk hr
    rw [hrun]
    exact ⟨rfl, events evs, events_writes _ evs hw, by simp [events]⟩
  · intro h
    obtain ⟨hc, hr, resp, hg, hk⟩ := DownloadFile_nil w filepath url h
    exact ⟨hc, ⟨resp, hg, hk⟩, hr⟩
  · rintro ⟨hc, ⟨resp, hg, hk⟩, hr⟩
    obtain ⟨cnt, bar, evs, _, _, _, _, hrun⟩ :=
      DownloadFile_success w filepath url resp hc hg hk hr
    rw [hrun]
  · intro h
    obtain ⟨hc, hr, resp, hg, hk⟩ := DownloadFile_nil w filepath url h
    obtain ⟨cnt, bar, evs, _, _, _, hw, hrun⟩ :=
      DownloadFile_success w filepath url resp hc hg hk hr
    rw [hrun]
    exact ⟨events evs, events_writes _ evs hw, by simp [events]⟩
  · intro resp
    have h := ioCopy_ret_copyFailure w filepath url resp
    refine ⟨?_, ?_⟩
    · intro k e hk
      rw [h]; simp only [hk]
    · intro hk
      rw [h]; simp only [hk]

theorem C3_witness :
    ((DownloadFile denied "mountain.jpg" "u").ret = Result.err ⟨"permission denied"⟩ ∧
      events (DownloadFile denied "mountain.jpg" "u").trace
        = [Event.Create ("mountain.jpg" ++ ".tmp")]) ∧
    ((DownloadFile diskFull "mountain.jpg" "u").ret
        = Result.err ⟨"no space left on device"⟩ ∧
      ∃ ws, (∀ x ∈ ws, ∃ q, x = Event.Write ("mountain.jpg" ++ ".tmp") q) ∧
        events (DownloadFile diskFull "mountain.jpg" "u").trace =
          [Event.Create ("mountain.jpg" ++ ".tmp"), Event.Get "u"] ++ ws ++
            [Event.CloseFile ("mountain.jpg" ++ ".tmp"), Event.CloseBody]) ∧
    (DownloadFile calm "mountain.jpg" "u").ret = Result.nil :=
  ⟨(C3_first_failing_step_ends_the_run denied "mountain.jpg" "u").1 _ rfl,
    (C3_first_failing_step_ends_the_run diskFull "mountain.jpg" "u").2.2.1 rfl _ rfl
      1 ⟨"no space left on device"⟩ (by decide),
    (C3_first_failing_step_ends_the_run calm "mountain.jpg" "u").2.2.2.2.1.2
      ⟨rfl, ⟨_, rfl, by decide⟩, rfl⟩⟩

/-- C4: when chunks whose lengths sum to less than `2 ^ 64` are passed one after
another to `WriteCounter.Write` on a counter whose `Total` is 0, the final `Total`
is the sum of the lengths of the chunks; and in a run of `DownloadFile` whose copy
of such a body completes, that `Total` is the number of bytes that went through the
tee into the temp file. -/
theorem C4_total_is_sum_of_lengths (wc : WriteCounter) (chunks : List Chunk)
    (h0 : wc.Total = 0) (hsum : totalLength chunks < 2 ^ 64) :
    (writeAll wc chunks).Total = totalLength chunks ∧
    ∀ (w : World) (filepath url : String) (resp : Response),
      w.createFault = none → w.httpGet url = Except.ok resp → resp.Body = chunks →
      copyFailure w.diskFault resp = none →
      (DownloadFile w filepath url).counter.map WriteCounter.Total
        = some (totalLength chunks) ∧
      (written (filepath ++ ".tmp") (DownloadFile w filepath url).trace).length
        = totalLength chunks := by
  have hu : totalLength chunks < u64 := by rw [u64_eq]; omega
  refine ⟨?_, ?_⟩
  · have h1 := writeAll_Total chunks wc
    have h2 := writeAll_lt chunks wc (by rw [h0]; decide)
    rw [h0, Nat.zero_add, Nat.mod_eq_of_lt h2, Nat.mod_eq_of_lt hu] at h1
    exact h1
  · intro w filepath url resp hc hg hb hk
    obtain ⟨cnt, h1, h2⟩ := DownloadFile_counter_Total w filepath url resp hc hg hk
    rw [hb, Nat.mod_eq_of_lt hu] at h2
    refine ⟨by rw [h1]; simp [h2], ?_⟩
    cases hr : w.renameFault with
    | some e =>
      obtain ⟨_, _, evs, _, _, hwr, _, hrun⟩ :=
        DownloadFile_rename_fail w filepath url resp e hc hg hk hr
      rw [hrun, ← hb, totalLength_eq, ← hwr]
      simp [written, List.foldr_append]
    | none =>
      obtain ⟨_, _, evs, _, _, hwr, _, hrun⟩ :=
        DownloadFile_success w filepath url resp hc hg hk hr
      rw [hrun, ← hb, totalLength_eq, ← hwr]
      simp [written, List.foldr_append]

theorem C4_witness :
    (newCounter ⟨200, contentLength "3", [], EOF⟩).Total = 0 ∧
    totalLength [⟨[1, 2], 63900000001000000000⟩, ⟨[], 63900000002000000000⟩,
      ⟨[3], 63900000003000000000⟩] < 2 ^ 64 ∧
    (writeAll (newCounter ⟨200, contentLength "3", [], EOF⟩)
      [⟨[1, 2], 63900000001000000000⟩, ⟨[], 63900000002000000000⟩,
        ⟨[3], 63900000003000000000⟩]).Total
      = totalLength [⟨[1, 2], 63900000001000000000⟩, ⟨[], 63900000002000000000⟩,
          ⟨[3], 63900000003000000000⟩] ∧
    (DownloadFile calm "mountain.jpg" "u").counter.map WriteCounter.Total
      = some (totalLength [⟨[1, 2], 63900000001000000000⟩, ⟨[], 63900000002000000000⟩,
          ⟨[3], 63900000003000000000⟩]) :=
  ⟨rfl, by decide,
    (C4_total_is_sum_of_lengths (newCounter ⟨200, contentLength "3", [], EOF⟩)
      [⟨[1, 2], 63900000001000000000⟩, ⟨[], 63900000002000000000⟩,
        ⟨[3], 63900000003000000000⟩] rfl (by decide)).1,
    ((C4_total_is_sum_of_lengths (newCounter ⟨200, contentLength "3", [], EOF⟩)
      [⟨[1, 2], 63900000001000000000⟩, ⟨[], 63900000002000000000⟩,
        ⟨[3], 63900000003000000000⟩] rfl (by decide)).2 calm "mountain.jpg" "u"
      ⟨200, contentLength "3", [⟨[1, 2], 63900000001000000000⟩,
        ⟨[], 63900000002000000000⟩, ⟨[3], 63900000003000000000⟩], EOF⟩
      rfl rfl rfl (by decide)).1⟩

/-- C5: on a counter whose progress bar is not nil, `WriteCounter.Write(p)` returns
`(len(p), nil)` for every slice `p`, the empty one included: no error and no short
write; and the tee hands on the bytes of `p` and the error of the read as they
were, so that the reporter neither fails the copy nor alters the payload. -/
theorem C5_write_returns_len_and_nil (wc : WriteCounter) (p : Bytes) (now : Time)
    (bar : ProgressBar) (h : wc.Progress = some bar) :
    (wc.Write p now).ret = some (p.length, none) ∧
    ∀ rerr, (teeRead wc p rerr now).ret = some (p, rerr) :=
  ⟨Write_ret_of_some wc p now bar h, fun rerr => teeRead_ret wc p rerr now bar h⟩

theorem C5_witness :
    ((newCounter ⟨200, contentLength "3", [], EOF⟩).Write [] 5).ret = some (0, none) ∧
    ∀ rerr, (teeRead (newCounter ⟨200, contentLength "3", [], EOF⟩) [] rerr 5).ret
      = some ([], rerr) :=
  C5_write_returns_len_and_nil (newCounter ⟨200, contentLength "3", [], EOF⟩) [] 5 _ rfl

/-- C6: when the streaming copy fails after `k` bytes of the body were written to
the temp file (`copyFailure`, and so `io.Copy` returns the error `e`),
`DownloadFile` returns the error of the copy, performs no rename and
no delete, leaves `filepath + ".tmp"` holding exactly those `k` bytes, and leaves
the final name `filepath` as it was, so that no file is created there. -/
theorem C6_failed_copy_leaves_temp_file (w : World) (filepath url : String)
    (resp : Response) (k : Nat) (e : Error)
    (hc : w.createFault = none) (hg : w.httpGet url = Except.ok resp)
    (hk : copyFailure w.diskFault resp = some (k, e)) :
    (copyStep w filepath url resp).2 = Result.err e ∧
    (DownloadFile w filepath url).ret = Result.err e ∧
    (∀ ev ∈ events (DownloadFile w filepath url).trace,
      (∀ a b, ev ≠ Event.Rename a b) ∧ ∀ a, ev ≠ Event.Remove a) ∧
    (DownloadFile w filepath url).fs (filepath ++ ".tmp")
      = some ((bodyBytes resp.Body).take k) ∧
    written (filepath ++ ".tmp") (DownloadFile w filepath url).trace
      = (bodyBytes resp.Body).take k ∧
    ((bodyBytes resp.Body).take k).length = k ∧
    (DownloadFile w filepath url).fs filepath = w.fs filepath := by
  obtain ⟨cnt, bar, evs, _, _, hwr, hw, hrun⟩ :=
    DownloadFile_copy_fail w filepath url resp k e hc hg hk
  have hle : k ≤ (bodyBytes resp.Body).length := by
    rw [← totalLength_eq]
    rcases hd : w.diskFault with _ | ⟨cap, e1⟩
    · rw [hd] at hk
      simp only [copyFailure] at hk
      split at hk
      · exact absurd hk (by simp)
      · simp only [Option.some.injEq, Prod.mk.injEq] at hk
        omega
    · rw [hd] at hk
      simp only [copyFailure] at hk
      split at hk
      · simp only [Option.some.injEq, Prod.mk.injEq] at hk
        omega
      · split at hk
        · exact absurd hk (by simp)
        · simp only [Option.some.injEq, Prod.mk.injEq] at hk
          omega
  have hcopy : (copyStep w filepath url resp).2 = Result.err e := by
    rw [ioCopy_ret_copyFailure]; simp only [hk]
  rw [hrun]
  refine ⟨hcopy, rfl, ?_, by simp, ?_, by simp [hle], ?_⟩
  · intro ev hev
    simp only [events, List.map_append, List.mem_append, List.map_cons, List.map_nil,
      List.mem_cons, List.mem_map] at hev
    have hnil : ev ∈ ([] : List Event) → False := by simp
    rcases hev with (((rfl | rfl | h) | ⟨y, hy, rfl⟩) | (rfl | rfl | h))
    · exact ⟨by intros; simp, by intros; simp⟩
    · exact ⟨by intros; simp, by intros; simp⟩
    · exact absurd h (by simp)
    · obtain ⟨q, hq⟩ := (hw y hy).1
      rw [hq]
      exact ⟨by intros; simp, by intros; simp⟩
    · exact ⟨by intros; simp, by intros; simp⟩
    · exact ⟨by intros; simp, by intros; simp⟩
    · exact absurd h (by simp)
  · rw [← hwr]
    simp [written, List.foldr_append]
  · simp [Function.update_noteq (Ne.symm (tmp_ne filepath))]

theorem C6_witness :
    (copyStep diskFull "mountain.jpg" "u"
      ⟨200, contentLength "3", [⟨[1, 2], 63900000001000000000⟩, ⟨[], 63900000002000000000⟩,
        ⟨[3], 63900000003000000000⟩], EOF⟩).2 = Result.err ⟨"no space left on device"⟩ ∧
    (DownloadFile diskFull "mountain.jpg" "u").ret
        = Result.err ⟨"no space left on device"⟩ ∧
    (∀ ev ∈ events (DownloadFile diskFull "mountain.jpg" "u").trace,
      (∀ a b, ev ≠ Event.Rename a b) ∧ ∀ a, ev ≠ Event.Remove a) ∧
    (DownloadFile diskFull "mountain.jpg" "u").fs ("mountain.jpg" ++ ".tmp")
      = some ((bodyBytes [⟨[1, 2], 63900000001000000000⟩, ⟨[], 63900000002000000000⟩,
          ⟨[3], 63900000003000000000⟩]).take 1) ∧
    written ("mountain.jpg" ++ ".tmp") (DownloadFile diskFull "mountain.jpg" "u").trace
      = (bodyBytes [⟨[1, 2], 63900000001000000000⟩, ⟨[], 63900000002000000000⟩,
          ⟨[3], 63900000003000000000⟩]).take 1 ∧
    ((bodyBytes [⟨[1, 2], 63900000001000000000⟩, ⟨[], 63900000002000000000⟩,
          ⟨[3], 63900000003000000000⟩]).take 1).length = 1 ∧
    (DownloadFile diskFull "mountain.jpg" "u").fs "mountain.jpg" = diskFull.fs "mountain.jpg" :=
  C6_failed_copy_leaves_temp_file diskFull "mountain.jpg" "u"
    ⟨200, contentLength "3", [⟨[1, 2], 63900000001000000000⟩, ⟨[], 63900000002000000000⟩,
      ⟨[3], 63900000003000000000⟩], EOF⟩ 1 ⟨"no space left on device"⟩ rfl rfl (by decide)

/-- C7, as stated, fails: for the header `Content-Length: 99999999999999999999`,
digits out of the `int` range, `strconv.Atoi` returns an error and the total passed
to the progress bar is `9223372036854775807`, not 0. -/
theorem C7_counterexample :
    (Atoi "99999999999999999999").2 = some NumError.outOfRange ∧
    barMax (DownloadFile hugeLength "mountain.jpg" "u") = some 9223372036854775807 ∧
    barMax (DownloadFile hugeLength "mountain.jpg" "u") ≠ some 0 := by
  decide

/-- C7, amended: the total passed to the progress bar is the integer `strconv.Atoi`
returns for the `Content-Length` header, its error dropped. It is 0 when the header
is absent (empty) and whenever `Atoi` reports a syntax error; whenever `Atoi`
reports a range error it is the bound of the `int` range on the side of the sign,
not 0. A header that is a decimal integer gets a nil error and that integer as
total when it is in the `int` range, and a range error and the largest or the
smallest `int` as total when it is above or below the range; `Atoi` returns a nil
error for no other header. A header that is no decimal integer gets a syntax
error and the total 0, unless the digits before its first character that is no
digit already exceed `2 ^ 64 - 1`: then it gets a range error and the bound of
its sign. -/
theorem C7_total_is_what_Atoi_returns (w : World) (filepath url : String)
    (resp : Response) (hc : w.createFault = none) (hg : w.httpGet url = Except.ok resp) :
    barMax (DownloadFile w filepath url)
      = some (Atoi (resp.Header.Get "Content-Length")).1 ∧
    (resp.Header.Get "Content-Length" = "" →
      barMax (DownloadFile w filepath url) = some 0) ∧
    ((Atoi (resp.Header.Get "Content-Length")).2 = some NumError.malformed →
      barMax (DownloadFile w filepath url) = some 0) ∧
    ((Atoi (resp.Header.Get "Content-Length")).2 = some NumError.outOfRange →
      barMax (DownloadFile w filepath url)
        = some (intBound (resp.Header.Get "Content-Length"))) ∧
    (∀ v : Int, decimalValue (resp.Header.Get "Content-Length") = some v →
      -(2 ^ 63) ≤ v → v < 2 ^ 63 →
      (Atoi (resp.Header.Get "Content-Length")).2 = none ∧
      barMax (DownloadFile w filepath url) = some v) ∧
    (∀ v : Int, decimalValue (resp.Header.Get "Content-Length") = some v →
      2 ^ 63 ≤ v →
      (Atoi (resp.Header.Get "Content-Length")).2 = some NumError.outOfRange ∧
      barMax (DownloadFile w filepath url) = some (2 ^ 63 - 1)) ∧
    (∀ v : Int, decimalValue (resp.Header.Get "Content-Length") = some v →
      v < -(2 ^ 63) →
      (Atoi (resp.Header.Get "Content-Length")).2 = some NumError.outOfRange ∧
      barMax (DownloadFile w filepath url) = some (-(2 ^ 63))) ∧
    (∀ v : Int, Atoi (resp.Header.Get "Content-Length") = (v, none) →
      decimalValue (resp.Header.Get "Content-Length") = some v ∧
      -(2 ^ 63) ≤ v ∧ v < 2 ^ 63 ∧
      barMax (DownloadFile w filepath url) = some v) ∧
    (unsignedPart (resp.Header.Get "Content-Length") = [] →
      (Atoi (resp.Header.Get "Content-Length")).2 = some NumError.malformed ∧
      barMax (DownloadFile w filepath url) = some 0) ∧
    (leadingDigits (resp.Header.Get "Content-Length")
        ≠ unsignedPart (resp.Header.Get "Content-Length") →
      digitsValue (leadingDigits (resp.Header.Get "Content-Length")) < 2 ^ 64 →
      (Atoi (resp.Header.Get "Content-Length")).2 = some NumError.malformed ∧
      barMax (DownloadFile w filepath url) = some 0) ∧
    (2 ^ 64 ≤ digitsValue (leadingDigits (resp.Header.Get "Content-Length")) →
      (Atoi (resp.Header.Get "Content-Length")).2 = some NumError.outOfRange ∧
      barMax (DownloadFile w filepath url)
        = some (intBound (resp.Header.Get "Content-Length"))) := by
  rw [barMax_run w filepath url resp hc hg]
  refine ⟨rfl, ?_, ?_, ?_, ?_, ?_, ?_, ?_, ?_, ?_, ?_⟩
  · intro h
    rw [h, Atoi_empty]
  · intro h
    rw [Atoi_malformed _ h]
  · intro h
    rw [Atoi_outOfRange_sign _ h]
  · intro v hv hlo hhi
    rw [Atoi_decimal _ v hv hlo hhi]
    exact ⟨rfl, rfl⟩
  · intro v hv hhi
    rw [Atoi_decimal_high _ v hv hhi]
    exact ⟨rfl, rfl⟩
  · intro v hv hlo
    rw [Atoi_decimal_low _ v hv hlo]
    exact ⟨rfl, rfl⟩
  · intro v hv
    obtain ⟨h1, h2⟩ := Atoi_accepts_range _ v hv
    exact ⟨Atoi_accepts _ v hv, h1, h2, by rw [hv]⟩
  · intro h
    rw [Atoi_no_digits _ h]
    exact ⟨rfl, rfl⟩
  · intro h hv
    rw [Atoi_nondigit _ h hv]
    exact ⟨rfl, rfl⟩
  · intro hv
    rw [Atoi_leading_overflow _ hv]
    exact ⟨rfl, rfl⟩

theorem C7_witness :
    (calm.createFault = none ∧ calm.httpGet "u" = serve 200 "3" "u" ∧
      decimalValue "3" = some 3 ∧
      (Atoi "3").2 = none ∧
      barMax (DownloadFile calm "mountain.jpg" "u") = some 3) ∧
    (hugeLength.createFault = none ∧
      hugeLength.httpGet "u" = serve 200 "99999999999999999999" "u" ∧
      decimalValue "99999999999999999999" = some 99999999999999999999 ∧
      (Atoi "99999999999999999999").2 = some NumError.outOfRange ∧
      barMax (DownloadFile hugeLength "mountain.jpg" "u") = some (2 ^ 63 - 1)) :=
  ⟨⟨rfl, rfl, by decide,
    (C7_total_is_what_Atoi_returns calm "mountain.jpg" "u"
      ⟨200, contentLength "3", [⟨[1, 2], 63900000001000000000⟩,
        ⟨[], 63900000002000000000⟩, ⟨[3], 63900000003000000000⟩], EOF⟩ rfl rfl).2.2.2.2.1
      3 (by decide) (by decide) (by decide)⟩,
    ⟨rfl, rfl, by decide,
    (C7_total_is_what_Atoi_returns hugeLength "mountain.jpg" "u"
      ⟨200, contentLength "99999999999999999999", [⟨[1, 2], 63900000001000000000⟩,
        ⟨[], 63900000002000000000⟩, ⟨[3], 63900000003000000000⟩], EOF⟩ rfl rfl).2.2.2.2.2.1
      99999999999999999999 (by decide) (by decide)⟩⟩

/-- C8 fails on the code. In the world `calm` the download begins at the clock
reading `63900000000000000000` and the first `Write`, of 2 bytes, is rendered one
second later. The claim gives the denominator `1000000000` nanoseconds and the rate
2 bytes a second. `DownloadFile` never sets `StartTime`, so that `PrintProgress`
measures from the zero `time.Time`: the elapsed time is the saturated
`9223372036854775807` nanoseconds at every `Write`, and the rate rendered is
`2 / 9223372036.854775807`. -/
theorem C8_rate_at_failing_input :
    calm.start = 63900000000000000000 ∧
    rendered (DownloadFile calm "mountain.jpg" "u")
      = [(2, 9223372036854775807), (1, 9223372036854775807)] ∧
    renderedSpeeds (DownloadFile calm "mountain.jpg" "u")
      = [(2 : ℚ) / Duration.Seconds 9223372036854775807,
          (1 : ℚ) / Duration.Seconds 9223372036854775807] ∧
    (63900000001000000000 : Time) - calm.start = 1000000000 ∧
    specRate 2 63900000001000000000 calm.start = 2 ∧
    (2 : ℚ) / Duration.Seconds 9223372036854775807
      ≠ specRate 2 63900000001000000000 calm.start := by
  refine ⟨rfl, by decide, rfl, by decide, ?_, ?_⟩
  · norm_num [specRate, Duration.Seconds, calm]
  · norm_num [specRate, Duration.Seconds, calm]

/-- C9, as stated, fails: on a counter whose `Total` is `2 ^ 64 - 1` a `Write` of one
byte wraps `Total` around to 0, which is less than before. -/
theorem C9_counterexample :
    (fullCounter.Write [0] 0).wc.Total = 0 ∧ fullCounter.Total = 18446744073709551615 ∧
    ¬ ((fullCounter.Write [0] 0).wc.Total ≥ fullCounter.Total) := by
  decide

/-- C9, amended: a `Write(p)` with `Total + len(p) < 2 ^ 64` leaves a `Total` that is
the old one plus `len(p)`, hence not less than the old one, whatever the state of
the counter, and `PrintProgress` never changes `Total`. -/
theorem C9_total_does_not_decrease_without_overflow (wc : WriteCounter) (p : Bytes)
    (now : Time) (h : wc.Total + p.length < 2 ^ 64) :
    (wc.Write p now).wc.Total ≥ wc.Total ∧
    (wc.Write p now).wc.Total = wc.Total + p.length ∧
    (wc.PrintProgress now).wc.Total = wc.Total := by
  have h1 : (wc.Write p now).wc.Total = wc.Total + p.length := by
    rw [Write_Total, Nat.mod_eq_of_lt (by rw [u64_eq]; omega)]
  exact ⟨by omega, h1, PrintProgress_Total wc now⟩

theorem C9_witness :
    nearFull.Total + ([1, 2] : Bytes).length < 2 ^ 64 ∧
    nearFull.Total = 18446744073709551613 ∧
    (nearFull.Write [1, 2] 7).wc.Total = 18446744073709551615 ∧
    ((nearFull.Write [1, 2] 7).wc.Total ≥ nearFull.Total ∧
      (nearFull.Write [1, 2] 7).wc.Total = nearFull.Total + ([1, 2] : Bytes).length ∧
      (nearFull.PrintProgress 7).wc.Total = nearFull.Total) :=
  ⟨by decide, rfl, by decide,
    C9_total_does_not_decrease_without_overflow nearFull [1, 2] 7 (by decide)⟩

/-- C10: the outcome of `DownloadFile` does not depend on the HTTP status code:
two worlds that differ in the status codes of the responses only give the same
run (same operations, same files, same return value), and a response whose body
can be read to the end is copied, renamed to `filepath` and reported as success
whatever its status code is. -/
theorem C10_status_code_is_ignored (w1 w2 : World) (filepath url : String)
    (h : eraseStatus w1 = eraseStatus w2) :
    DownloadFile w1 filepath url = DownloadFile w2 filepath url ∧
    (w1.createFault = none → w1.renameFault = none →
      ∀ resp, w1.httpGet url = Except.ok resp → copyFailure w1.diskFault resp = none →
        (DownloadFile w1 filepath url).ret = Result.nil ∧
        (DownloadFile w1 filepath url).fs filepath = some (bodyBytes resp.Body)) := by
  refine ⟨?_, ?_⟩
  · rw [← DownloadFile_eraseStatus w1, ← DownloadFile_eraseStatus w2, h]
  · intro hc hr resp hg hk
    obtain ⟨cnt, bar, evs, _, _, _, _, hrun⟩ :=
      DownloadFile_success w1 filepath url resp hc hg hk hr
    rw [hrun]
    simp

theorem C10_witness :
    eraseStatus notFound = eraseStatus calm ∧
    DownloadFile notFound "mountain.jpg" "u" = DownloadFile calm "mountain.jpg" "u" ∧
    (DownloadFile notFound "mountain.jpg" "u").ret = Result.nil ∧
    (DownloadFile notFound "mountain.jpg" "u").fs "mountain.jpg" = some [1, 2, 3] :=
  ⟨rfl, (C10_status_code_is_ignored notFound calm "mountain.jpg" "u" rfl).1,
    (C10_status_code_is_ignored notFound calm "mountain.jpg" "u" rfl).2 rfl rfl
      ⟨404, contentLength "3", [⟨[1, 2], 63900000001000000000⟩,
        ⟨[], 63900000002000000000⟩, ⟨[3], 63900000003000000000⟩], EOF⟩ rfl (by decide)⟩

end Downloader
